import Mathlib

/-!
Verification of the incremental crawl-and-update engine of the
`coletor_textos` repository (files `app.py` and `build_index.py`).

The Python sources are shallowly embedded: pure helpers become Lean
functions, stateful code threads its state explicitly, and the external
collaborators (the HTTP world, the HTML text extractor, the SHA-256 digest,
the wall clock and the staleness test on timestamps) are parameters.
Python `str` methods used by the sources are modelled at the `List Char`
level (`pyUpper`, `pyLower`, `pyStartsWith`, `pySplitChar`, `decRepr` for
decimal rendering of integers), which matches Python's semantics on the
ASCII data these programs manipulate and keeps every definition
kernel-executable.

Shared definitions (`TYPES`, `base_url`, `gerar_links`, `make_doc_id`) are
given once; they appear verbatim in both source files.  Definitions specific
to one file live in the namespaces `App` (for `app.py`) and `BuildIndex`
(for `build_index.py`).
-/

-- ==================================================================
-- Python string-method models (ASCII-level semantics)
-- ==================================================================

/-- Model of Python `str.upper()` (character-wise, as for ASCII data). -/
def pyUpper (s : String) : String := ⟨s.data.map Char.toUpper⟩

/-- Model of Python `str.lower()` (character-wise, as for ASCII data). -/
def pyLower (s : String) : String := ⟨s.data.map Char.toLower⟩

/-- Model of Python `str.startswith(p)`. -/
def pyStartsWith (s p : String) : Bool := decide (s.data.take p.data.length = p.data)

/-- Model of Python `str.split(sep)` for a single-character separator
(worker on character lists; `acc` holds the current field reversed). -/
def pySplitCharAux (sep : Char) : List Char → List Char → List (List Char)
  | [], acc => [acc.reverse]
  | c :: rest, acc =>
    if c = sep then acc.reverse :: pySplitCharAux sep rest []
    else pySplitCharAux sep rest (c :: acc)

/-- Model of Python `str.split(sep)` for a single-character separator. -/
def pySplitChar (s : String) (sep : Char) : List String :=
  (pySplitCharAux sep s.data []).map String.mk

/-- Model of Python `str.replace(a, b)` for single-character `a`, `b`. -/
def pyReplaceChar (s : String) (a b : Char) : String :=
  ⟨s.data.map fun c => if c = a then b else c⟩

/-- Decimal digits of `n`, most significant first, as produced by Python
`str(int)` for non-negative values.  Structural fuel (`fuel ≥ n` suffices)
keeps the definition kernel-executable. -/
def decReprAux : Nat → Nat → List Char
  | 0, _ => []
  | fuel + 1, n =>
    if n < 10 then [Nat.digitChar n]
    else decReprAux fuel (n / 10) ++ [Nat.digitChar (n % 10)]

/-- Decimal rendering of a natural number, as Python `str(n)`. -/
def decRepr (n : Nat) : List Char := decReprAux (n + 1) n

/-- Python `str(n)` for a natural number, as a `String`. -/
def natStr (n : Nat) : String := ⟨decRepr n⟩

/-- Python `str(a)` for an `int`: a leading `-` for negative values. -/
def intStr (a : Int) : String :=
  if a < 0 then "-" ++ natStr a.natAbs else natStr a.toNat

/-- Numeric value of a list of decimal digit characters (the fold Python's
`int(s)` performs); used to invert `decRepr`. -/
def valDigits (l : List Char) : Nat :=
  l.foldl (fun a c => a * 10 + (c.toNat - 48)) 0

-- ==================================================================
-- Shared configuration and pure helpers (app.py 30-90, build_index.py 24-108)
-- ==================================================================

/-- The configured legal-norm type codes (`TYPES` in both sources). -/
def TYPES : List String :=
  ["ADT", "CON", "DCS", "DCJ", "DEC", "DNE", "DSN", "DEL", "DLB", "DCE", "EMC",
   "LEI", "LEA", "LCP", "LDL", "LCO", "OSV", "PRT", "PTC", "RAL"]

/-- `base_url` (app.py 81-82, build_index.py 97-98). -/
def base_url (tipo : String) (numero : Nat) (ano : Int) : String :=
  "https://www.almg.gov.br/legislacao-mineira/texto/" ++ tipo ++ "/" ++
    natStr numero ++ "/" ++ intStr ano

/-- `gerar_links` (app.py 84-86, build_index.py 101-103): the dict
`{"Original": b + "/", "Consolidado": b + "/?cons=1"}` as an association
list. -/
def gerar_links (tipo : String) (numero : Nat) (ano : Int) : List (String × String) :=
  [("Original", base_url tipo numero ano ++ "/"),
   ("Consolidado", base_url tipo numero ano ++ "/?cons=1")]

/-- The dict lookup `gerar_links(...)[versao]` performed by the callers. -/
def link_for (tipo : String) (numero : Nat) (ano : Int) (versao : String) : String :=
  ((gerar_links tipo numero ano).lookup versao).getD ""

/-- The variant slug `"orig" if versao.lower().startswith("orig") else "cons"`
(app.py 89, build_index.py 107). -/
def versao_slug (versao : String) : String :=
  if pyStartsWith (pyLower versao) "orig" then "orig" else "cons"

/-- `make_doc_id` (app.py 88-90, build_index.py 106-108):
`f"{tipo.upper()}_{numero}_{ano}_{versao_slug}"`. -/
def make_doc_id (tipo : String) (numero : Nat) (ano : Int) (versao : String) : String :=
  pyUpper tipo ++ "_" ++ natStr numero ++ "_" ++ intStr ano ++ "_" ++ versao_slug versao

-- ==================================================================
-- Network model
-- ==================================================================

/-- The response-header subset the sources retain (`ETag`, `Last-Modified`);
`none` models absence of the key in `r.headers`. -/
structure RespHeaders where
  etag : Option String := none
  lastModified : Option String := none
deriving DecidableEq

/-- Outcome of one HTTP GET: either a response (status code, body text,
retained headers) or a transport exception (`requests` raising). -/
inductive NetResult where
  | resp (code : Nat) (text : String) (headers : RespHeaders)
  | netError
deriving DecidableEq

/-- Conditional-GET request headers (`If-None-Match`, `If-Modified-Since`). -/
structure CondHeaders where
  ifNoneMatch : Option String := none
  ifModifiedSince : Option String := none
deriving DecidableEq

/-- The external HTTP world: what one GET of a URL with given conditional
headers produces.  Deterministic within a run; each run may pick its own. -/
abbrev World : Type := String → CondHeaders → NetResult

namespace App

-- ==================================================================
-- app.py 129-138: request budget
-- ==================================================================

/-- `Budget` (app.py 129-132). -/
structure Budget where
  max_requests : Nat
  used : Nat := 0
deriving DecidableEq

/-- `Budget.ok` (app.py 134-135): `used < max_requests`. -/
def Budget.ok (b : Budget) : Bool := b.used < b.max_requests

/-- `Budget.spend` (app.py 137-138): unconditional increment. -/
def Budget.spend (b : Budget) (n : Nat := 1) : Budget := { b with used := b.used + n }

-- ==================================================================
-- app.py 172-206: fetch and existence oracle
-- ==================================================================

/-- `fetch_html` (app.py 172-195).  Returns
`(status_code, html, response_headers_subset)` and the budget after the
call.  If the budget is exhausted no request is issued and the budget is
unchanged; otherwise exactly one unit is spent whether the GET returns or
raises, the body is kept only on status 200, and the `ETag`/`Last-Modified`
subset of the response headers is retained. -/
def fetch_html (w : World) (url : String) (b : Budget)
    (headers : Option CondHeaders := none) : (Nat × String × RespHeaders) × Budget :=
  if b.ok then
    (match w url (headers.getD {}) with
     | .netError => (0, "", {})
     | .resp code text h => (code, if code = 200 then text else "", h),
     b.spend 1)
  else ((0, "", {}), b)

/-- Fold a whole sequence of fetches through the budget (the shape of any
run: every network call in the sources goes through `fetch_html`). -/
def runFetches (w : World) (urls : List String) (b : Budget) : Budget :=
  urls.foldl (fun b u => (fetch_html w u b).2) b

/-- `norma_existe` (app.py 197-206): GET the `Original` link and report
whether the extracted text has length `> 50`.  `extract` is the external
text extractor `extrair_texto_html_from_html`. -/
def norma_existe (w : World) (extract : String → String) (tipo : String)
    (numero : Nat) (ano : Int) (b : Budget) : Bool × Budget :=
  let url := link_for tipo numero ano "Original"
  let r := fetch_html w url b
  (if r.1.1 ≠ 200 ∨ r.1.2.1 = "" then false
   else decide (50 < (extract r.1.2.1).length), r.2)

-- ==================================================================
-- app.py 211-238: exponential probe + binary search
-- ==================================================================

/-- The exponential-growth loop of `achar_ultimo_numero` (app.py 225-227):
`while hi <= max_limite and budget.ok() and norma_existe(tipo, hi, ano,
budget): lo = hi; hi *= 2`.  Also returns the list of probes made
(candidate, oracle answer). -/
def expLoop (w : World) (extract : String → String) (tipo : String) (ano : Int)
    (maxL : Nat) (lo hi : Nat) (b : Budget) : Nat × Nat × Budget × List (Nat × Bool) :=
  if h : hi ≤ maxL ∧ b.ok = true then
    match h' : norma_existe w extract tipo hi ano b with
    | (e, b') =>
      if e then
        let r := expLoop w extract tipo ano maxL hi (hi * 2) b'
        (r.1, r.2.1, r.2.2.1, (hi, e) :: r.2.2.2)
      else (lo, hi, b', [(hi, e)])
  else (lo, hi, b, [])
termination_by b.max_requests - b.used
decreasing_by
  simp only [norma_existe, fetch_html, h.2, if_true] at h'
  cases h'
  simp only [Budget.spend]
  have := h.2
  simp only [Budget.ok, decide_eq_true_eq] at this
  omega

/-- The binary-search loop of `achar_ultimo_numero` (app.py 230-236):
`while left + 1 < right and budget.ok(): mid = (left + right) // 2; ...`.
Also returns the list of probes made. -/
def binLoop (w : World) (extract : String → String) (tipo : String) (ano : Int)
    (left right : Nat) (b : Budget) : Nat × Budget × List (Nat × Bool) :=
  if h : left + 1 < right ∧ b.ok = true then
    let mid := (left + right) / 2
    match h' : norma_existe w extract tipo mid ano b with
    | (e, b') =>
      if e then
        let r := binLoop w extract tipo ano mid right b'
        (r.1, r.2.1, (mid, e) :: r.2.2)
      else
        let r := binLoop w extract tipo ano left mid b'
        (r.1, r.2.1, (mid, e) :: r.2.2)
  else (left, b, [])
termination_by b.max_requests - b.used
decreasing_by
  all_goals
    simp only [norma_existe, fetch_html, h.2, if_true] at h'
    cases h'
    simp only [Budget.spend]
    have := h.2
    simp only [Budget.ok, decide_eq_true_eq] at this
    omega

/-- `achar_ultimo_numero` (app.py 211-238): exponential growth then binary
search.  Returns the discovered number, the final budget, and the full
probe trace (each probe is one `norma_existe` call, hence one unit of
budget). -/
def achar_ultimo_numero (w : World) (extract : String → String) (tipo : String)
    (ano : Int) (b : Budget) (max_limite : Nat := 300000) :
    Nat × Budget × List (Nat × Bool) :=
  if ¬ b.ok then (0, b, [])
  else
    let r1 := norma_existe w extract tipo 1 ano b
    if ¬ r1.1 then (0, r1.2, [(1, r1.1)])
    else
      let e := expLoop w extract tipo ano max_limite 1 2 r1.2
      let bl := binLoop w extract tipo ano e.1 (min e.2.1 max_limite) e.2.2.1
      (bl.1, bl.2.1, (1, r1.1) :: (e.2.2.2 ++ bl.2.2))

end App

-- ==================================================================
-- Documents and the index (whoosh) as consumed by the core
-- ==================================================================

/-- The stored fields of one indexed document (the dict built by
`fetch_and_build_doc` / `fetch_doc`, matching the whoosh schema). -/
structure DocRecord where
  doc_id : String
  tipo_sigla : String
  numero : Nat
  ano : Int
  versao : String
  url : String
  texto : String
  coletado_em : String
  etag : String
  last_modified : String
  content_hash : String
deriving DecidableEq

/-- The Index Writer's read view: stored fields by `doc_id` (whoosh
`searcher.document(doc_id=...)`). -/
abbrev Ix : Type := String → Option DocRecord

/-- `doc_meta` (app.py 265-273, build_index.py 297-300). -/
def doc_meta (ix : Ix) (doc_id : String) : Option DocRecord := ix doc_id

/-- The conditional-GET headers built from a prior record (app.py 304-310,
build_index.py 309-314): `If-None-Match` from a non-empty stored `etag`,
`If-Modified-Since` from a non-empty stored `last_modified`. -/
def cond_of (prev : Option DocRecord) : CondHeaders :=
  { ifNoneMatch :=
      match prev with
      | some p => if p.etag ≠ "" then some p.etag else none
      | none => none,
    ifModifiedSince :=
      match prev with
      | some p => if p.last_modified ≠ "" then some p.last_modified else none
      | none => none }

namespace App

/-- `upsert_docs` (app.py 275-289): `writer.update_document` for each dict
(replacement keyed by the unique `doc_id`), then commit; returns
`(ok, fail)`.  The model has no writer exceptions, so `fail = 0`. -/
def upsert_docs (ix : Ix) (docs : List DocRecord) : Ix × Nat × Nat :=
  (docs.foldl (fun acc d => fun k => if k = d.doc_id then some d else acc k) ix,
   docs.length, 0)

/-- The external collaborators `update_type_year` consumes: the HTTP world,
the text extractor `extrair_texto_html_from_html`, the digest `sha256_str`,
the staleness test on a stored `last_probe_at` (Python: parse fails, or more
than 7 days before `datetime.utcnow()`), and the current `now_iso()`. -/
structure Env where
  w : World
  extract : String → String
  hashf : String → String
  stale : String → Bool
  now : String

/-- `fetch_and_build_doc` (app.py 294-343): conditional GET using the prior
record's `etag`/`last_modified`, then the `None` cascade (304; non-200 or
empty body; text length at most 50; unchanged `content_hash`), else a fresh
record. -/
def fetch_and_build_doc (env : Env) (ix : Ix) (tipo : String) (numero : Nat)
    (ano : Int) (versao : String) (b : Budget) : Option DocRecord × Budget :=
  let url := link_for tipo numero ano versao
  let doc_id := make_doc_id tipo numero ano versao
  let prev := doc_meta ix doc_id
  let cond := cond_of prev
  let r := fetch_html env.w url b (some cond)
  let code := r.1.1
  let html := r.1.2.1
  let resp_h := r.1.2.2
  let b' := r.2
  if code = 304 then (none, b')
  else if code ≠ 200 ∨ html = "" then (none, b')
  else
    let texto := env.extract html
    if texto.length ≤ 50 then (none, b')
    else
      let content_hash := env.hashf texto
      if prev.any fun p => decide (p.content_hash = content_hash) then (none, b')
      else
        (some {
          doc_id := doc_id
          tipo_sigla := pyUpper tipo
          numero := numero
          ano := ano
          versao := versao
          url := url
          texto := texto
          coletado_em := env.now
          etag := resp_h.etag.getD ""
          last_modified := resp_h.lastModified.getD ""
          content_hash := content_hash }, b')

-- ==================================================================
-- app.py 345-447: the incremental update planner
-- ==================================================================

/-- The per-(tipo, ano) crawl state (app.py 117-124). -/
structure TyState where
  last_num_known : Int := 0
  last_probe_at : Option String := none
  last_checked_at : Option String := none
deriving DecidableEq

/-- Run counters (app.py 353). -/
structure Counters where
  new : Nat := 0
  updated : Nat := 0
  skipped : Nat := 0
  probed : Nat := 0
deriving DecidableEq

/-- The `need_probe` decision of `update_type_year` (app.py 361-373):
probe when nothing is known yet, when the stored probe timestamp is stale
or unparseable, or when a number is known but no probe was ever recorded. -/
def need_probe_of (ty : TyState) (stale : String → Bool) : Bool :=
  (ty.last_num_known == 0) ||
    (match ty.last_probe_at with
     | some s => stale s
     | none => decide (0 < ty.last_num_known))

/-- The backward walk locating `start_new` (app.py 395-405): from
`last_known` step down at most 50 times looking for a number already in the
index; on a hit return that number plus one. -/
def backScan (ix : Ix) (tipo : String) (ano : Int) : Nat → Nat → Option Nat
  | _, 0 => none
  | probe, remaining + 1 =>
    if 1 ≤ probe then
      if (doc_meta ix (make_doc_id tipo probe ano "Original")).isSome then some (probe + 1)
      else backScan ix tipo ano (probe - 1) remaining
    else none

/-- The inner variant loop of the new-range backfill (app.py 412-423):
fetch each variant; non-`None` results are buffered and counted as new or
updated against the (pre-run) index, `None` results count as skipped.
Also returns the (numero, versao) fetch attempts made. -/
def phase1Versions (env : Env) (ix : Ix) (tipo : String) (ano : Int) (numero : Nat) :
    List String → Budget → Counters →
    List DocRecord × Budget × Counters × List (Nat × String)
  | [], b, c => ([], b, c, [])
  | v :: rest, b, c =>
    let r := fetch_and_build_doc env ix tipo numero ano v b
    match r.1 with
    | some d =>
      let c' := if (doc_meta ix d.doc_id).isNone then { c with new := c.new + 1 }
                else { c with updated := c.updated + 1 }
      let q := phase1Versions env ix tipo ano numero rest r.2 c'
      (d :: q.1, q.2.1, q.2.2.1, (numero, v) :: q.2.2.2)
    | none =>
      let q := phase1Versions env ix tipo ano numero rest r.2
        { c with skipped := c.skipped + 1 }
      (q.1, q.2.1, q.2.2.1, (numero, v) :: q.2.2.2)

/-- The numero loop of the new-range backfill (app.py 408-425), breaking as
soon as the budget is exhausted. -/
def phase1Nums (env : Env) (ix : Ix) (tipo : String) (ano : Int) :
    List Nat → Budget → Counters →
    List DocRecord × Budget × Counters × List (Nat × String)
  | [], b, c => ([], b, c, [])
  | n :: rest, b, c =>
    if b.ok then
      let q := phase1Versions env ix tipo ano n ["Original", "Consolidado"] b c
      let q2 := phase1Nums env ix tipo ano rest q.2.1 q.2.2.1
      (q.1 ++ q2.1, q2.2.1, q2.2.2.1, q.2.2.2 ++ q2.2.2.2)
    else ([], b, c, [])

/-- The inner variant loop of the recheck window (app.py 435-439): buffered
results count as updated; `None` results are not counted. -/
def phase2Versions (env : Env) (ix : Ix) (tipo : String) (ano : Int) (numero : Nat) :
    List String → Budget × Counters →
    List DocRecord × Budget × Counters × List (Nat × String)
  | [], (b, c) => ([], b, c, [])
  | v :: rest, (b, c) =>
    let r := fetch_and_build_doc env ix tipo numero ano v b
    match r.1 with
    | some d =>
      let q := phase2Versions env ix tipo ano numero rest
        (r.2, { c with updated := c.updated + 1 })
      (d :: q.1, q.2.1, q.2.2.1, (numero, v) :: q.2.2.2)
    | none =>
      let q := phase2Versions env ix tipo ano numero rest (r.2, c)
      (q.1, q.2.1, q.2.2.1, (numero, v) :: q.2.2.2)

/-- The numero loop of the recheck window (app.py 428-440), breaking as soon
as the budget is exhausted. -/
def phase2Nums (env : Env) (ix : Ix) (tipo : String) (ano : Int) :
    List Nat → Budget → Counters →
    List DocRecord × Budget × Counters × List (Nat × String)
  | [], b, c => ([], b, c, [])
  | n :: rest, b, c =>
    if b.ok then
      let q := phase2Versions env ix tipo ano n ["Original", "Consolidado"] (b, c)
      let q2 := phase2Nums env ix tipo ano rest q.2.1 q.2.2.1
      (q.1 ++ q2.1, q2.2.1, q2.2.2.1, q.2.2.2 ++ q2.2.2.2)
    else ([], b, c, [])

/-- `update_type_year` (app.py 345-447): optional probe (raising
`last_num_known` to the max of old and discovered), new-range backfill from
the backward-scan start, recheck window, one final `upsert_docs` of all
buffered documents, `last_checked_at := now`.  Returns the counters, the new
state, the new index view, the final budget, and the (numero, versao) fetch
attempts made. -/
def update_type_year (env : Env) (ix : Ix) (tipo : String) (ano : Int)
    (ty : TyState) (b : Budget) (recheck_window : Nat) :
    Counters × TyState × Ix × Budget × List (Nat × String) :=
  let c0 : Counters := {}
  let last_known := ty.last_num_known
  let need_probe := need_probe_of ty env.stale
  let pr :=
    if need_probe && b.ok then
      let a := achar_ultimo_numero env.w env.extract tipo ano b
      let ultimo : Int := (a.1 : Int)
      let lk := if last_known < ultimo then ultimo else last_known
      let lk := if lk < 0 then 0 else lk
      ({ c0 with probed := c0.probed + 1 },
       { ty with last_probe_at := some env.now, last_num_known := lk }, lk, a.2.1)
    else (c0, ty, last_known, b)
  let c1 := pr.1
  let ty1 := pr.2.1
  let lk1 := pr.2.2.1
  let b1 := pr.2.2.2
  let ph1 :=
    if decide (0 < lk1) && b1.ok then
      let start_new := (backScan ix tipo ano lk1.toNat 50).getD 1
      phase1Nums env ix tipo ano (List.range' start_new (lk1.toNat + 1 - start_new)) b1 c1
    else ([], b1, c1, [])
  let docs1 := ph1.1
  let b2 := ph1.2.1
  let c2 := ph1.2.2.1
  let tr1 := ph1.2.2.2
  let ph2 :=
    if decide (0 < lk1) && b2.ok && decide (0 < recheck_window) then
      let start : Int := max 1 (lk1 - (recheck_window : Int) + 1)
      phase2Nums env ix tipo ano (List.range' start.toNat (lk1.toNat + 1 - start.toNat)) b2 c2
    else ([], b2, c2, [])
  let docs2 := ph2.1
  let b3 := ph2.2.1
  let c3 := ph2.2.2.1
  let tr2 := ph2.2.2.2
  let docs := docs1 ++ docs2
  let ix' := if docs.isEmpty then ix else (upsert_docs ix docs).1
  (c3, { ty1 with last_checked_at := some env.now }, ix', b3, tr1 ++ tr2)

end App

namespace BuildIndex

-- ==================================================================
-- build_index.py 63-72, 213-234, 303-343
-- ==================================================================

/-- `Budget` (build_index.py 63-66). -/
structure Budget where
  max : Nat
  used : Nat := 0
deriving DecidableEq

/-- `Budget.ok` (build_index.py 68-69). -/
def Budget.ok (b : Budget) : Bool := b.used < b.max

/-- `Budget.spend` (build_index.py 71-72). -/
def Budget.spend (b : Budget) (n : Nat := 1) : Budget := { b with used := b.used + n }

/-- `fetch` (build_index.py 213-234): same contract as `App.fetch_html`. -/
def fetch (w : World) (url : String) (b : Budget)
    (headers : Option CondHeaders := none) : (Nat × String × RespHeaders) × Budget :=
  if b.ok then
    (match w url (headers.getD {}) with
     | .netError => (0, "", {})
     | .resp code text h => (code, if code = 200 then text else "", h),
     b.spend 1)
  else ((0, "", {}), b)

/-- `fetch_doc` (build_index.py 303-343): as `App.fetch_and_build_doc` but
with the version-aware extractor `extrair_texto_html_from_html(html,
preferir_versao=versao)` and minimum-content threshold 80. -/
def fetch_doc (w : World) (extract2 : String → String → String)
    (hashf : String → String) (now : String) (ix : Ix) (tipo : String)
    (numero : Nat) (ano : Int) (versao : String) (b : Budget) :
    Option DocRecord × Budget :=
  let url := link_for tipo numero ano versao
  let doc_id := make_doc_id tipo numero ano versao
  let prev := doc_meta ix doc_id
  let cond := cond_of prev
  let r := fetch w url b (some cond)
  let code := r.1.1
  let html := r.1.2.1
  let rh := r.1.2.2
  let b' := r.2
  if code = 304 then (none, b')
  else if code ≠ 200 ∨ html = "" then (none, b')
  else
    let texto := extract2 html versao
    if texto.length ≤ 80 then (none, b')
    else
      let h := hashf texto
      if prev.any fun p => decide (p.content_hash = h) then (none, b')
      else
        (some {
          doc_id := doc_id
          tipo_sigla := pyUpper tipo
          numero := numero
          ano := ano
          versao := versao
          url := url
          texto := texto
          coletado_em := now
          etag := rh.etag.getD ""
          last_modified := rh.lastModified.getD ""
          content_hash := h }, b')

end BuildIndex

-- ==================================================================
-- File-system effect traces of the two save_state functions
-- ==================================================================

/-- The file-system operations the state-persistence code performs. -/
inductive FileOp where
  | mkdir (path : String)
  | write (path content : String)
  | rename (src dst : String)
deriving DecidableEq

/-- `STATE_PATH` (`os.path.join("data", "state.json")`). -/
def STATE_PATH : String := "data/state.json"

/-- Number of operations in a trace that write `path` in place. -/
def directWrites (tr : List FileOp) (path : String) : Nat :=
  (tr.filter fun op =>
    match op with
    | .write p _ => p == path
    | _ => false).length

/-- A trace persists `path` atomically when it never writes `path` in
place and it fully writes some other file first and then renames that file
onto `path` (write-to-temp-then-rename). -/
def atomic_persist (tr : List FileOp) (path : String) : Prop :=
  directWrites tr path = 0 ∧
  ∃ tmp content i j, tmp ≠ path ∧ i < j ∧
    tr.get? i = some (FileOp.write tmp content) ∧
    tr.get? j = some (FileOp.rename tmp path)

namespace App

/-- The file-system trace of `save_state` (app.py 105-110): `mkdirp`, dump
the JSON document to `STATE_PATH + ".tmp"`, then `os.replace` onto
`STATE_PATH`.  `content` stands for the serialized document. -/
def save_state_trace (content : String) : List FileOp :=
  [FileOp.mkdir "data",
   FileOp.write (STATE_PATH ++ ".tmp") content,
   FileOp.rename (STATE_PATH ++ ".tmp") STATE_PATH]

end App

namespace BuildIndex

/-- The file-system trace of `save_state` (build_index.py 291-294):
`mkdirp`, then dump the JSON document directly to `STATE_PATH`. -/
def save_state_trace (content : String) : List FileOp :=
  [FileOp.mkdir "data", FileOp.write STATE_PATH content]

end BuildIndex

-- ==================================================================
-- safe_extract (build_index.py 111-117)
-- ==================================================================

/-- The skip condition of `safe_extract`: after normalizing backslashes,
the member name starts with `/` or has `..` as a path segment. -/
def member_bad (name : String) : Bool :=
  let p := pyReplaceChar name '\\' '/'
  pyStartsWith p "/" || decide (".." ∈ pySplitChar p '/')

/-- `safe_extract` (build_index.py 111-117) restricted to its decision
logic: of the archive's member names, the sublist actually extracted (the
others are skipped by `continue`). -/
def safe_extract (names : List String) : List String :=
  names.filter fun m => ! member_bad m

/-- Walking the path segments of a relative path from depth `depth` inside
the extraction directory: does the walk ever step above the start? -/
def escapeSteps : List String → Int → Bool
  | [], _ => false
  | seg :: rest, depth =>
    if seg = ".." then
      if depth ≤ 0 then true else escapeSteps rest (depth - 1)
    else if seg = "" ∨ seg = "." then escapeSteps rest depth
    else escapeSteps rest (depth + 1)

/-- A member name targets a path outside the extraction directory when it
is absolute or its segment walk escapes upward. -/
def targets_outside_cwd (name : String) : Bool :=
  let p := pyReplaceChar name '\\' '/'
  pyStartsWith p "/" || escapeSteps (pySplitChar p '/') 0

-- ==================================================================
-- Concrete worlds and fixtures used to instantiate the theorems
-- ==================================================================

/-- A body of 60 identical characters: longer than every minimum-content
threshold in the sources. -/
def longText : String := ⟨List.replicate 60 'a'⟩

/-- The URL prefix of the `Original` link for tipo `LEI`, ano 2020. -/
def urlNumPrefix : String := "https://www.almg.gov.br/legislacao-mineira/texto/LEI/"

/-- Recover the numero from an `Original` link of tipo `LEI`, ano 2020. -/
def decodeNum (url : String) : Nat :=
  valDigits ((url.data.drop urlNumPrefix.data.length).takeWhile Char.isDigit)

/-- A world in which exactly the numbers `1..N` of tipo `LEI`, ano 2020
exist: their pages carry `longText`, all other URLs render an empty body. -/
def worldContig (N : Nat) : World := fun url _ =>
  NetResult.resp 200 (if 1 ≤ decodeNum url ∧ decodeNum url ≤ N then longText else "") {}

/-- The identity text extractor used with `worldContig`. -/
def idExtract : String → String := fun s => s

/-- A world in which every URL responds 200 with the same body. -/
def wAll200 : World := fun _ _ => NetResult.resp 200 "pagina" {}

/-- The empty index view. -/
def ixEmpty : Ix := fun _ => none

/-- A fixture environment: every page exists and extracts to `longText`,
the digest is the identity, timestamps are never stale. -/
def envAll : App.Env :=
  { w := wAll200
    extract := fun _ => longText
    hashf := fun s => s
    stale := fun _ => false
    now := "2026-01-01T00:00:00Z" }

/-- A world in which every request raises a transport exception. -/
def wNetErr : World := fun _ _ => NetResult.netError

-- ==================================================================
-- Theorems.  Helper lemmas come first, then one theorem per claim
-- (plus its witness or counterexample).
-- ==================================================================

theorem App.fetch_html_budget (w : World) (url : String) (b : App.Budget)
    (headers : Option CondHeaders) :
    (App.fetch_html w url b headers).2 = if b.ok then b.spend 1 else b := by
  by_cases h : b.ok <;> simp [App.fetch_html, h]

theorem App.fetch_html_spend_max (w : World) (url : String) (b : App.Budget)
    (headers : Option CondHeaders) :
    (App.fetch_html w url b headers).2.max_requests = b.max_requests := by
  rw [App.fetch_html_budget]
  by_cases h : b.ok <;> simp [h, App.Budget.spend]

theorem BuildIndex.fetch_budget (w : World) (url : String) (b : BuildIndex.Budget)
    (headers : Option CondHeaders) :
    (BuildIndex.fetch w url b headers).2 = if b.ok then b.spend 1 else b := by
  by_cases h : b.ok <;> simp [BuildIndex.fetch, h]

/-- C2: for every run and every sequence of fetch calls the budget
invariant `used ≤ max` is preserved; `ok()` answers `used < max`; a fetch
with available budget spends exactly one unit whatever the network outcome,
and a fetch without available budget leaves the budget untouched (no call
is issued: the guard short-circuits before `requests.get`).  Stated for
`app.py`'s `Budget`/`fetch_html` and for `build_index.py`'s `Budget`. -/
theorem C2_budget_conservation :
    (∀ b : App.Budget, b.ok = true ↔ b.used < b.max_requests) ∧
    (∀ (w : World) (url : String) (headers : Option CondHeaders) (b : App.Budget),
      (b.ok = true → (App.fetch_html w url b headers).2 = b.spend 1) ∧
      (b.ok = false → (App.fetch_html w url b headers).2 = b) ∧
      (b.used ≤ b.max_requests →
        (App.fetch_html w url b headers).2.used ≤ b.max_requests)) ∧
    (∀ (w : World) (urls : List String) (b : App.Budget),
      b.used ≤ b.max_requests → (App.runFetches w urls b).used ≤ b.max_requests) ∧
    (∀ b : BuildIndex.Budget, b.ok = true ↔ b.used < b.max) ∧
    (∀ (w : World) (url : String) (headers : Option CondHeaders) (b : BuildIndex.Budget),
      (b.ok = true → (BuildIndex.fetch w url b headers).2 = b.spend 1) ∧
      (b.ok = false → (BuildIndex.fetch w url b headers).2 = b)) := by
  refine ⟨fun b => by simp [App.Budget.ok], ?_, ?_, fun b => by simp [BuildIndex.Budget.ok], ?_⟩
  · intro w url headers b
    refine ⟨fun h => ?_, fun h => ?_, fun h => ?_⟩
    · rw [App.fetch_html_budget, if_pos h]
    · rw [App.fetch_html_budget, if_neg (by simp [h])]
    · rw [App.fetch_html_budget]
      by_cases hok : b.ok
      · have : b.used < b.max_requests := by simpa [App.Budget.ok] using hok
        simp [hok, App.Budget.spend]
        omega
      · simpa [hok] using h
  · intro w urls
    induction urls with
    | nil => intro b h; simpa [App.runFetches] using h
    | cons u rest ih =>
      intro b h
      have h1 : (App.fetch_html w u b).2.used ≤ (App.fetch_html w u b).2.max_requests := by
        rw [App.fetch_html_budget]
        by_cases hok : b.ok
        · have : b.used < b.max_requests := by simpa [App.Budget.ok] using hok
          simp [hok, App.Budget.spend]
          omega
        · simpa [hok] using h
      have := ih (App.fetch_html w u b).2 h1
      simpa [App.runFetches, List.foldl_cons, App.fetch_html_spend_max] using this
  · intro w url headers b
    refine ⟨fun h => ?_, fun h => ?_⟩
    · rw [BuildIndex.fetch_budget, if_pos h]
    · rw [BuildIndex.fetch_budget, if_neg (by simp [h])]

theorem C2_budget_conservation_witness :
    ((⟨2, 1⟩ : App.Budget).ok = true ↔ 1 < 2) ∧
    (App.fetch_html wAll200 "u" ⟨2, 1⟩ none).2 = (⟨2, 1⟩ : App.Budget).spend 1 ∧
    (App.fetch_html wAll200 "u" ⟨1, 1⟩ none).2 = (⟨1, 1⟩ : App.Budget) ∧
    (App.runFetches wAll200 ["a", "b", "c"] ⟨2, 0⟩).used ≤ 2 ∧
    (BuildIndex.fetch wNetErr "u" ⟨3, 0⟩ none).2 = (⟨3, 0⟩ : BuildIndex.Budget).spend 1 :=
  ⟨C2_budget_conservation.1 ⟨2, 1⟩,
   (C2_budget_conservation.2.1 wAll200 "u" none ⟨2, 1⟩).1 (by decide),
   (C2_budget_conservation.2.1 wAll200 "u" none ⟨1, 1⟩).2.1 (by decide),
   C2_budget_conservation.2.2.1 wAll200 ["a", "b", "c"] ⟨2, 0⟩ (by decide),
   (C2_budget_conservation.2.2.2.2 wNetErr "u" none ⟨3, 0⟩).1 (by decide)⟩

/-- C9: with the budget already exhausted, `fetch_html` (app.py) and
`fetch` (build_index.py) issue no request, leave the budget unchanged and
return the triple `(0, "", {})`; a transport exception with budget
available returns the same triple but spends one unit — so the returned
value alone cannot distinguish the two situations. -/
theorem C9_exhausted_fetch_result :
    (∀ (w : World) (url : String) (headers : Option CondHeaders) (b : App.Budget),
      b.ok = false → App.fetch_html w url b headers = ((0, "", {}), b)) ∧
    (∀ (w : World) (url : String) (headers : Option CondHeaders) (b : App.Budget),
      b.ok = true → w url (headers.getD {}) = NetResult.netError →
        App.fetch_html w url b headers = ((0, "", {}), b.spend 1)) ∧
    (∀ (w : World) (url : String) (headers : Option CondHeaders) (b : BuildIndex.Budget),
      b.ok = false → BuildIndex.fetch w url b headers = ((0, "", {}), b)) ∧
    (∀ (w : World) (url : String) (headers : Option CondHeaders) (b : BuildIndex.Budget),
      b.ok = true → w url (headers.getD {}) = NetResult.netError →
        BuildIndex.fetch w url b headers = ((0, "", {}), b.spend 1)) := by
  refine ⟨?_, ?_, ?_, ?_⟩
  · intro w url headers b h
    simp [App.fetch_html, h]
  · intro w url headers b h hw
    simp [App.fetch_html, h, hw]
  · intro w url headers b h
    simp [BuildIndex.fetch, h]
  · intro w url headers b h hw
    simp [BuildIndex.fetch, h, hw]

theorem C9_exhausted_fetch_result_witness :
    App.fetch_html wNetErr "u" ⟨0, 0⟩ none = ((0, "", {}), (⟨0, 0⟩ : App.Budget)) ∧
    App.fetch_html wNetErr "u" ⟨5, 0⟩ none = ((0, "", {}), (⟨5, 0⟩ : App.Budget).spend 1) ∧
    BuildIndex.fetch wNetErr "u" ⟨0, 0⟩ none = ((0, "", {}), (⟨0, 0⟩ : BuildIndex.Budget)) ∧
    BuildIndex.fetch wNetErr "u" ⟨5, 0⟩ none = ((0, "", {}), (⟨5, 0⟩ : BuildIndex.Budget).spend 1) :=
  ⟨C9_exhausted_fetch_result.1 wNetErr "u" none ⟨0, 0⟩ (by decide),
   C9_exhausted_fetch_result.2.1 wNetErr "u" none ⟨5, 0⟩ (by decide) rfl,
   C9_exhausted_fetch_result.2.2.1 wNetErr "u" none ⟨0, 0⟩ (by decide),
   C9_exhausted_fetch_result.2.2.2 wNetErr "u" none ⟨5, 0⟩ (by decide) rfl⟩

-- ==================================================================
-- Decimal rendering: inverse, digit facts, injectivity
-- ==================================================================

theorem digitChar_isDigit : ∀ d, d < 10 → (Nat.digitChar d).isDigit = true := by decide

theorem digitChar_toNat : ∀ d, d < 10 → (Nat.digitChar d).toNat - 48 = d := by decide

theorem decReprAux_notMem (x : Char) (hx : ∀ d, d < 10 → Nat.digitChar d ≠ x) :
    ∀ fuel n, x ∉ decReprAux fuel n := by
  intro fuel
  induction fuel with
  | zero => intro n; simp [decReprAux]
  | succ f ih =>
    intro n
    by_cases h : n < 10
    · simp only [decReprAux, if_pos h, List.mem_singleton]
      exact fun hc => hx n h hc.symm
    · simp only [decReprAux, if_neg h, List.mem_append, List.mem_singleton]
      rintro (hc | hc)
      · exact ih _ hc
      · exact hx (n % 10) (Nat.mod_lt _ (by norm_num)) hc.symm

theorem decReprAux_isDigit : ∀ fuel n, ∀ c ∈ decReprAux fuel n, c.isDigit = true := by
  intro fuel
  induction fuel with
  | zero => intro n c hc; simp [decReprAux] at hc
  | succ f ih =>
    intro n c hc
    by_cases h : n < 10
    · simp only [decReprAux, if_pos h, List.mem_singleton] at hc
      exact hc ▸ digitChar_isDigit n h
    · simp only [decReprAux, if_neg h, List.mem_append, List.mem_singleton] at hc
      rcases hc with hc | hc
      · exact ih _ _ hc
      · exact hc ▸ digitChar_isDigit _ (Nat.mod_lt _ (by norm_num))

theorem valDigits_append_single (l : List Char) (c : Char) :
    valDigits (l ++ [c]) = valDigits l * 10 + (c.toNat - 48) := by
  simp [valDigits, List.foldl_append]

theorem valDigits_decReprAux : ∀ fuel n, n < fuel → valDigits (decReprAux fuel n) = n := by
  intro fuel
  induction fuel with
  | zero => intro n h; omega
  | succ f ih =>
    intro n h
    by_cases h10 : n < 10
    · simp [decReprAux, if_pos h10, valDigits, digitChar_toNat n h10]
    · rw [decReprAux, if_neg h10, valDigits_append_single,
        ih (n / 10) (by omega), digitChar_toNat _ (Nat.mod_lt _ (by norm_num))]
      omega

theorem valDigits_decRepr (n : Nat) : valDigits (decRepr n) = n :=
  valDigits_decReprAux (n + 1) n (Nat.lt_succ_self n)

theorem decRepr_inj {m n : Nat} (h : decRepr m = decRepr n) : m = n := by
  have := congrArg valDigits h
  rwa [valDigits_decRepr, valDigits_decRepr] at this

theorem decRepr_notMem_underscore (n : Nat) : '_' ∉ decRepr n :=
  decReprAux_notMem '_' (by decide) (n + 1) n

theorem decRepr_notMem_dash (n : Nat) : '-' ∉ decRepr n :=
  decReprAux_notMem '-' (by decide) (n + 1) n

theorem intStr_data_neg {a : Int} (h : a < 0) : (intStr a).data = '-' :: decRepr a.natAbs := by
  simp [intStr, if_pos h, natStr, String.data_append]

theorem intStr_data_nonneg {a : Int} (h : ¬ a < 0) : (intStr a).data = decRepr a.toNat := by
  simp [intStr, if_neg h, natStr]

theorem intStr_notMem_underscore (a : Int) : '_' ∉ (intStr a).data := by
  by_cases h : a < 0
  · rw [intStr_data_neg h]
    intro hc
    rcases List.mem_cons.1 hc with hc | hc
    · exact absurd hc (by decide)
    · exact decRepr_notMem_underscore _ hc
  · rw [intStr_data_nonneg h]
    exact decRepr_notMem_underscore _

theorem intStr_inj {a b : Int} (h : (intStr a).data = (intStr b).data) : a = b := by
  by_cases ha : a < 0 <;> by_cases hb : b < 0
  · rw [intStr_data_neg ha, intStr_data_neg hb] at h
    have := decRepr_inj (List.cons.injEq .. ▸ h).2
    omega
  · rw [intStr_data_neg ha, intStr_data_nonneg hb] at h
    exact absurd (h ▸ List.mem_cons_self '-' _) (decRepr_notMem_dash _)
  · rw [intStr_data_nonneg ha, intStr_data_neg hb] at h
    exact absurd (h.symm ▸ List.mem_cons_self '-' _) (decRepr_notMem_dash _)
  · rw [intStr_data_nonneg ha, intStr_data_nonneg hb] at h
    have := decRepr_inj h
    omega

/-- Cutting a concatenation at a separator character that appears in
neither left part recovers both parts. -/
theorem append_sep_inj (x : Char) :
    ∀ (l1 l2 m1 m2 : List Char), x ∉ l1 → x ∉ l2 →
      l1 ++ x :: m1 = l2 ++ x :: m2 → l1 = l2 ∧ m1 = m2 := by
  intro l1
  induction l1 with
  | nil =>
    intro l2 m1 m2 _ h2 h
    cases l2 with
    | nil => simpa using h
    | cons c l2' =>
      simp only [List.nil_append, List.cons_append, List.cons.injEq] at h
      exact absurd (h.1 ▸ List.mem_cons_self c l2') h2
  | cons c l1' ih =>
    intro l2 m1 m2 h1 h2 h
    cases l2 with
    | nil =>
      simp only [List.cons_append, List.nil_append, List.cons.injEq] at h
      exact absurd (h.1.symm ▸ List.mem_cons_self c l1') h1
    | cons d l2' =>
      simp only [List.cons_append, List.cons.injEq] at h
      obtain ⟨rfl, h⟩ := h
      have := ih l2' m1 m2 (fun hc => h1 (List.mem_cons_of_mem _ hc))
        (fun hc => h2 (List.mem_cons_of_mem _ hc)) h
      exact ⟨by rw [this.1], this.2⟩

theorem make_doc_id_data (tipo : String) (n : Nat) (a : Int) (v : String) :
    (make_doc_id tipo n a v).data =
      (pyUpper tipo).data ++ '_' ::
        (decRepr n ++ '_' :: ((intStr a).data ++ '_' :: (versao_slug v).data)) := by
  simp [make_doc_id, natStr, String.data_append]

theorem pyUpper_TYPES_no_underscore : ∀ t ∈ TYPES, '_' ∉ (pyUpper t).data := by decide

theorem pyUpper_TYPES_inj :
    ∀ t1 ∈ TYPES, ∀ t2 ∈ TYPES, (pyUpper t1).data = (pyUpper t2).data → t1 = t2 := by decide

theorem versao_slug_inj :
    ∀ v1 ∈ (["Original", "Consolidado"] : List String),
    ∀ v2 ∈ (["Original", "Consolidado"] : List String),
      (versao_slug v1).data = (versao_slug v2).data → v1 = v2 := by decide

/-- C8: `make_doc_id` is a pure deterministic function of
(type, number, year, variant) and is collision-free on the configured
underscore-free type codes, positive numbers, integer years and the two
variants: two doc ids coincide exactly when all four inputs coincide
(right-to-left is determinism, left-to-right is collision-freeness). -/
theorem C8_make_doc_id_deterministic_injective :
    ∀ t1 ∈ TYPES, ∀ t2 ∈ TYPES, ∀ n1 n2 : Nat, 0 < n1 → 0 < n2 → ∀ a1 a2 : Int,
    ∀ v1 ∈ (["Original", "Consolidado"] : List String),
    ∀ v2 ∈ (["Original", "Consolidado"] : List String),
      (make_doc_id t1 n1 a1 v1 = make_doc_id t2 n2 a2 v2 ↔
        (t1 = t2 ∧ n1 = n2 ∧ a1 = a2 ∧ v1 = v2)) := by
  intro t1 ht1 t2 ht2 n1 n2 _ _ a1 a2 v1 hv1 v2 hv2
  constructor
  · intro h
    have hd := congrArg String.data h
    rw [make_doc_id_data, make_doc_id_data] at hd
    have cut1 := append_sep_inj '_' _ _ _ _
      (pyUpper_TYPES_no_underscore t1 ht1) (pyUpper_TYPES_no_underscore t2 ht2) hd
    have cut2 := append_sep_inj '_' _ _ _ _
      (decRepr_notMem_underscore n1) (decRepr_notMem_underscore n2) cut1.2
    have cut3 := append_sep_inj '_' _ _ _ _
      (intStr_notMem_underscore a1) (intStr_notMem_underscore a2) cut2.2
    exact ⟨pyUpper_TYPES_inj t1 ht1 t2 ht2 cut1.1, decRepr_inj cut2.1,
      intStr_inj cut3.1, versao_slug_inj v1 hv1 v2 hv2 cut3.2⟩
  · rintro ⟨rfl, rfl, rfl, rfl⟩
    rfl

theorem C8_make_doc_id_deterministic_injective_witness :
    ("LEI", 1, (2020 : Int), "Original") ≠ ("DEC", 1, (2020 : Int), "Original") ∧
    make_doc_id "LEI" 1 2020 "Original" ≠ make_doc_id "DEC" 1 2020 "Original" := by
  refine ⟨by decide, fun h => ?_⟩
  have := (C8_make_doc_id_deterministic_injective "LEI" (by decide) "DEC" (by decide)
    1 1 (by decide) (by decide) 2020 2020 "Original" (by decide) "Original" (by decide)).mp h
  exact absurd this.1 (by decide)

-- ==================================================================
-- C10: safe_extract
-- ==================================================================

theorem escapeSteps_no_dotdot :
    ∀ (segs : List String) (d : Int), ".." ∉ segs → 0 ≤ d → escapeSteps segs d = false := by
  intro segs
  induction segs with
  | nil => intro d _ _; rfl
  | cons seg rest ih =>
    intro d hmem hd
    have hseg : seg ≠ ".." := fun h => hmem (h ▸ List.mem_cons_self _ _)
    have hrest : ".." ∉ rest := fun h => hmem (List.mem_cons_of_mem _ h)
    by_cases h0 : seg = "" ∨ seg = "."
    · simp only [escapeSteps, if_neg hseg, if_pos h0]
      exact ih d hrest hd
    · simp only [escapeSteps, if_neg hseg, if_neg h0]
      exact ih (d + 1) hrest (by omega)

/-- C10: `safe_extract` extracts exactly the members whose normalized name
(backslashes replaced by slashes) neither starts with `/` nor has `..` as a
path segment; consequently no extracted member targets a path outside the
extraction directory (absolute, or walking above the start). -/
theorem C10_safe_extract_filters_traversal :
    ∀ (names : List String) (m : String),
      (m ∈ safe_extract names ↔
        m ∈ names ∧
        ¬ (pyStartsWith (pyReplaceChar m '\\' '/') "/" = true ∨
           ".." ∈ pySplitChar (pyReplaceChar m '\\' '/') '/')) ∧
      (m ∈ safe_extract names → targets_outside_cwd m = false) := by
  intro names m
  have hiff : m ∈ safe_extract names ↔
      m ∈ names ∧
      ¬ (pyStartsWith (pyReplaceChar m '\\' '/') "/" = true ∨
         ".." ∈ pySplitChar (pyReplaceChar m '\\' '/') '/') := by
    simp only [safe_extract, List.mem_filter, Bool.not_eq_true', member_bad,
      Bool.or_eq_false_iff, decide_eq_false_iff_not]
    constructor
    · rintro ⟨hm, h1, h2⟩
      exact ⟨hm, by simp [h1, h2]⟩
    · rintro ⟨hm, h⟩
      push_neg at h
      exact ⟨hm, by simp [h.1], h.2⟩
  refine ⟨hiff, fun hm => ?_⟩
  have h := (hiff.mp hm).2
  push_neg at h
  simp only [targets_outside_cwd, Bool.or_eq_false_iff]
  exact ⟨by simp [h.1], escapeSteps_no_dotdot _ 0 h.2 le_rfl⟩

theorem C10_safe_extract_filters_traversal_witness :
    "docs/a.txt" ∈ safe_extract ["docs/a.txt", "/abs.txt", "../evil"] ∧
    targets_outside_cwd "docs/a.txt" = false := by
  have h := C10_safe_extract_filters_traversal ["docs/a.txt", "/abs.txt", "../evil"] "docs/a.txt"
  have hm := h.1.mpr (by decide)
  exact ⟨hm, h.2 hm⟩

-- ==================================================================
-- C5: atomicity of state persistence
-- ==================================================================

/-- C5 counterexample: `build_index.py`'s `save_state` writes the state
file in place (its trace contains a direct write of `STATE_PATH`), so it is
not a write-to-temp-then-rename persistence. -/
theorem C5_build_index_not_atomic_counterexample :
    ¬ atomic_persist (BuildIndex.save_state_trace "x") STATE_PATH := by
  rintro ⟨h0, -⟩
  exact absurd h0 (by decide)

/-- C5 amended: `app.py`'s `save_state` persists the crawl state
atomically (full write to `STATE_PATH + ".tmp"`, then rename onto
`STATE_PATH`, never a direct write of `STATE_PATH`); `build_index.py`'s
`save_state`, by contrast, performs a single direct in-place write of
`STATE_PATH` with no temporary file. -/
theorem C5_app_save_state_atomic :
    (∀ content, atomic_persist (App.save_state_trace content) STATE_PATH) ∧
    (∀ content, BuildIndex.save_state_trace content =
        [FileOp.mkdir "data", FileOp.write STATE_PATH content] ∧
      directWrites (BuildIndex.save_state_trace content) STATE_PATH = 1) := by
  constructor
  · intro content
    refine ⟨rfl, STATE_PATH ++ ".tmp", content, 1, 2, by decide, by omega, rfl, rfl⟩
  · intro content
    exact ⟨rfl, rfl⟩

-- ==================================================================
-- C3: the None cascade of the conditional fetcher
-- ==================================================================

theorem option_any_decide_iff {α : Type} (o : Option α) (f : α → Prop) [DecidablePred f] :
    (o.any fun x => decide (f x)) = true ↔ ∃ p, o = some p ∧ f p := by
  cases o <;> simp

theorem App.fetch_and_build_doc_spec
    (env : Env) (ix : Ix) (tipo : String) (numero : Nat) (ano : Int)
    (versao : String) (b : Budget)
    (r : (Nat × String × RespHeaders) × Budget)
    (hr : r = fetch_html env.w (link_for tipo numero ano versao) b
      (some (cond_of (doc_meta ix (make_doc_id tipo numero ano versao))))) :
    ((fetch_and_build_doc env ix tipo numero ano versao b).1 = none ↔
      (r.1.1 = 304 ∨ r.1.1 ≠ 200 ∨ r.1.2.1 = "" ∨
       (env.extract r.1.2.1).length ≤ 50 ∨
       ∃ p, doc_meta ix (make_doc_id tipo numero ano versao) = some p ∧
         p.content_hash = env.hashf (env.extract r.1.2.1))) ∧
    (∀ d, (fetch_and_build_doc env ix tipo numero ano versao b).1 = some d →
      d.coletado_em = env.now ∧
      d.etag = r.1.2.2.etag.getD "" ∧
      d.last_modified = r.1.2.2.lastModified.getD "" ∧
      d.content_hash = env.hashf (env.extract r.1.2.1) ∧
      d.doc_id = make_doc_id tipo numero ano versao ∧
      d.texto = env.extract r.1.2.1 ∧
      d.url = link_for tipo numero ano versao ∧
      d.numero = numero ∧ d.ano = ano ∧ d.versao = versao ∧
      d.tipo_sigla = pyUpper tipo) := by
  subst hr
  simp only [fetch_and_build_doc]
  constructor
  · split_ifs with h1 h2 h3 h4
    · exact iff_of_true rfl (Or.inl h1)
    · exact iff_of_true rfl (by tauto)
    · exact iff_of_true rfl (by tauto)
    · refine iff_of_true rfl (Or.inr (Or.inr (Or.inr (Or.inr ?_))))
      exact (option_any_decide_iff _ _).1 h4
    · refine iff_of_false (by simp) ?_
      have h4' := (option_any_decide_iff
        (doc_meta ix (make_doc_id tipo numero ano versao))
        (fun p => p.content_hash =
          env.hashf (env.extract (fetch_html env.w (link_for tipo numero ano versao) b
            (some (cond_of (doc_meta ix (make_doc_id tipo numero ano versao))))).1.2.1))).not.1
        (by simpa using h4)
      rintro (hc | hc | hc | hc | hc)
      · exact h1 hc
      · exact h2 (Or.inl hc)
      · exact h2 (Or.inr hc)
      · exact h3 hc
      · exact h4' hc
  · intro d hd
    split_ifs at hd with h1 h2 h3 h4
    all_goals first
      | exact absurd hd (fun hc => Option.noConfusion hc)
      | (obtain rfl := Option.some.inj hd
         exact ⟨rfl, rfl, rfl, rfl, rfl, rfl, rfl, rfl, rfl, rfl, rfl⟩)

theorem BuildIndex.fetch_doc_spec
    (w : World) (extract2 : String → String → String) (hashf : String → String)
    (now : String) (ix : Ix) (tipo : String) (numero : Nat) (ano : Int)
    (versao : String) (b : Budget)
    (r : (Nat × String × RespHeaders) × Budget)
    (hr : r = fetch w (link_for tipo numero ano versao) b
      (some (cond_of (doc_meta ix (make_doc_id tipo numero ano versao))))) :
    ((fetch_doc w extract2 hashf now ix tipo numero ano versao b).1 = none ↔
      (r.1.1 = 304 ∨ r.1.1 ≠ 200 ∨ r.1.2.1 = "" ∨
       (extract2 r.1.2.1 versao).length ≤ 80 ∨
       ∃ p, doc_meta ix (make_doc_id tipo numero ano versao) = some p ∧
         p.content_hash = hashf (extract2 r.1.2.1 versao))) ∧
    (∀ d, (fetch_doc w extract2 hashf now ix tipo numero ano versao b).1 = some d →
      d.coletado_em = now ∧
      d.etag = r.1.2.2.etag.getD "" ∧
      d.last_modified = r.1.2.2.lastModified.getD "" ∧
      d.content_hash = hashf (extract2 r.1.2.1 versao) ∧
      d.doc_id = make_doc_id tipo numero ano versao) := by
  subst hr
  simp only [fetch_doc]
  constructor
  · split_ifs with h1 h2 h3 h4
    · exact iff_of_true rfl (Or.inl h1)
    · exact iff_of_true rfl (by tauto)
    · exact iff_of_true rfl (by tauto)
    · refine iff_of_true rfl (Or.inr (Or.inr (Or.inr (Or.inr ?_))))
      exact (option_any_decide_iff _ _).1 h4
    · refine iff_of_false (by simp) ?_
      have h4' := (option_any_decide_iff
        (doc_meta ix (make_doc_id tipo numero ano versao))
        (fun p => p.content_hash =
          hashf (extract2 (fetch w (link_for tipo numero ano versao) b
            (some (cond_of (doc_meta ix (make_doc_id tipo numero ano versao))))).1.2.1
            versao))).not.1 (by simpa using h4)
      rintro (hc | hc | hc | hc | hc)
      · exact h1 hc
      · exact h2 (Or.inl hc)
      · exact h2 (Or.inr hc)
      · exact h3 hc
      · exact h4' hc
  · intro d hd
    split_ifs at hd with h1 h2 h3 h4
    all_goals first
      | exact absurd hd (fun hc => Option.noConfusion hc)
      | (obtain rfl := Option.some.inj hd
         exact ⟨rfl, rfl, rfl, rfl, rfl⟩)

/-- C3: `fetch_and_build_doc` (app.py) and `fetch_doc` (build_index.py)
return `None` exactly when the conditional GET signals not-modified (304),
or the response is non-success or has an empty body, or the extracted text
is at or below the minimum-content threshold (50 resp. 80), or a prior
record for the same `doc_id` carries the identical `content_hash`; in every
other case they return a record carrying the fresh `collected_at` timestamp
and the cache-validation headers observed on this very response. -/
theorem C3_conditional_fetch_none_iff :
    (∀ (env : App.Env) (ix : Ix) (tipo : String) (numero : Nat) (ano : Int)
       (versao : String) (b : App.Budget)
       (r : (Nat × String × RespHeaders) × App.Budget),
       r = App.fetch_html env.w (link_for tipo numero ano versao) b
         (some (cond_of (doc_meta ix (make_doc_id tipo numero ano versao)))) →
       (((App.fetch_and_build_doc env ix tipo numero ano versao b).1 = none ↔
          (r.1.1 = 304 ∨ r.1.1 ≠ 200 ∨ r.1.2.1 = "" ∨
           (env.extract r.1.2.1).length ≤ 50 ∨
           ∃ p, doc_meta ix (make_doc_id tipo numero ano versao) = some p ∧
             p.content_hash = env.hashf (env.extract r.1.2.1))) ∧
        (∀ d, (App.fetch_and_build_doc env ix tipo numero ano versao b).1 = some d →
          d.coletado_em = env.now ∧
          d.etag = r.1.2.2.etag.getD "" ∧
          d.last_modified = r.1.2.2.lastModified.getD ""))) ∧
    (∀ (w : World) (extract2 : String → String → String) (hashf : String → String)
       (now : String) (ix : Ix) (tipo : String) (numero : Nat) (ano : Int)
       (versao : String) (b : BuildIndex.Budget)
       (r : (Nat × String × RespHeaders) × BuildIndex.Budget),
       r = BuildIndex.fetch w (link_for tipo numero ano versao) b
         (some (cond_of (doc_meta ix (make_doc_id tipo numero ano versao)))) →
       (((BuildIndex.fetch_doc w extract2 hashf now ix tipo numero ano versao b).1 = none ↔
          (r.1.1 = 304 ∨ r.1.1 ≠ 200 ∨ r.1.2.1 = "" ∨
           (extract2 r.1.2.1 versao).length ≤ 80 ∨
           ∃ p, doc_meta ix (make_doc_id tipo numero ano versao) = some p ∧
             p.content_hash = hashf (extract2 r.1.2.1 versao))) ∧
        (∀ d, (BuildIndex.fetch_doc w extract2 hashf now ix tipo numero ano versao b).1 = some d →
          d.coletado_em = now ∧
          d.etag = r.1.2.2.etag.getD "" ∧
          d.last_modified = r.1.2.2.lastModified.getD ""))) := by
  constructor
  · intro env ix tipo numero ano versao b r hr
    have h := App.fetch_and_build_doc_spec env ix tipo numero ano versao b r hr
    exact ⟨h.1, fun d hd => ⟨(h.2 d hd).1, (h.2 d hd).2.1, (h.2 d hd).2.2.1⟩⟩
  · intro w extract2 hashf now ix tipo numero ano versao b r hr
    have h := BuildIndex.fetch_doc_spec w extract2 hashf now ix tipo numero ano versao b r hr
    exact ⟨h.1, fun d hd => ⟨(h.2 d hd).1, (h.2 d hd).2.1, (h.2 d hd).2.2.1⟩⟩

theorem C3_conditional_fetch_none_iff_witness :
    (App.fetch_and_build_doc
      { w := wNetErr, extract := fun s => s, hashf := fun s => s,
        stale := fun _ => false, now := "T" }
      ixEmpty "LEI" 1 2020 "Original" ⟨5, 0⟩).1 = none ∧
    (App.fetch_and_build_doc envAll ixEmpty "LEI" 1 2020 "Original" ⟨5, 0⟩).1.map
      DocRecord.coletado_em = some "2026-01-01T00:00:00Z" := by
  constructor
  · exact ((C3_conditional_fetch_none_iff.1
      { w := wNetErr, extract := fun s => s, hashf := fun s => s,
        stale := fun _ => false, now := "T" }
      ixEmpty "LEI" 1 2020 "Original" ⟨5, 0⟩ _ rfl).1).mpr
      (Or.inr (Or.inl (by decide)))
  · have h2 := C3_conditional_fetch_none_iff.1 envAll ixEmpty "LEI" 1 2020 "Original" ⟨5, 0⟩ _ rfl
    cases hres : (App.fetch_and_build_doc envAll ixEmpty "LEI" 1 2020 "Original" ⟨5, 0⟩).1 with
    | none =>
      rcases h2.1.mp hres with hc | hc | hc | hc | ⟨p, hp, -⟩
      · exact absurd hc (by decide)
      · exact absurd hc (by decide)
      · exact absurd hc (by decide)
      · exact absurd hc (by decide)
      · exact Option.noConfusion hp
    | some d =>
      have := (h2.2 d hres).1
      simp [this]
      rfl

-- ==================================================================
-- C4: monotonicity of last_num_known
-- ==================================================================

/-- C4: across a planner step for fixed (tipo, ano), the stored
`last_num_known` never decreases: when the probe branch runs it becomes the
maximum of the old value and the probe's result, and otherwise no operation
of `update_type_year` touches it. -/
theorem C4_last_num_known_monotone :
    ∀ (env : App.Env) (ix : Ix) (tipo : String) (ano : Int) (ty : App.TyState)
      (b : App.Budget) (rcw : Nat),
      ty.last_num_known ≤
        (App.update_type_year env ix tipo ano ty b rcw).2.1.last_num_known ∧
      ((App.need_probe_of ty env.stale && b.ok) = true →
        (App.update_type_year env ix tipo ano ty b rcw).2.1.last_num_known =
          max ty.last_num_known
            ((App.achar_ultimo_numero env.w env.extract tipo ano b).1 : Int)) ∧
      ((App.need_probe_of ty env.stale && b.ok) = false →
        (App.update_type_year env ix tipo ano ty b rcw).2.1.last_num_known =
          ty.last_num_known) := by
  intro env ix tipo ano ty b rcw
  have key : (App.update_type_year env ix tipo ano ty b rcw).2.1.last_num_known =
      if (App.need_probe_of ty env.stale && b.ok) = true then
        max ty.last_num_known
          ((App.achar_ultimo_numero env.w env.extract tipo ano b).1 : Int)
      else ty.last_num_known := by
    by_cases hp : (App.need_probe_of ty env.stale && b.ok) = true
    · simp only [App.update_type_year, hp, if_true, if_pos]
      split_ifs <;> omega
    · have hp' : (App.need_probe_of ty env.stale && b.ok) = false := by
        revert hp
        cases App.need_probe_of ty env.stale && b.ok <;> simp
      simp only [App.update_type_year, hp', Bool.false_eq_true, if_false, if_neg hp]
  refine ⟨?_, fun hp => by rw [key, if_pos hp], fun hp => by rw [key]; simp [hp]⟩
  rw [key]
  split_ifs
  · exact le_max_left _ _
  · exact le_rfl

theorem C4_last_num_known_monotone_witness :
    (App.need_probe_of {} envAll.stale && (⟨1, 0⟩ : App.Budget).ok) = true ∧
    (App.update_type_year envAll ixEmpty "LEI" 2020 {} ⟨1, 0⟩ 0).2.1.last_num_known =
      max (0 : Int)
        ((App.achar_ultimo_numero envAll.w envAll.extract "LEI" 2020 ⟨1, 0⟩).1 : Int) :=
  ⟨by decide,
   (C4_last_num_known_monotone envAll ixEmpty "LEI" 2020 {} ⟨1, 0⟩ 0).2.1 (by decide)⟩

-- ==================================================================
-- Prober loop lemmas (general worlds)
-- ==================================================================

theorem App.norma_existe_budget (w : World) (x : String → String) (tipo : String)
    (n : Nat) (ano : Int) (b : App.Budget) :
    (App.norma_existe w x tipo n ano b).2 = if b.ok = true then b.spend 1 else b :=
  App.fetch_html_budget w (link_for tipo n ano "Original") b none

theorem App.norma_existe_not_ok (w : World) (x : String → String) (tipo : String)
    (n : Nat) (ano : Int) (b : App.Budget) (hok : b.ok = false) :
    App.norma_existe w x tipo n ano b = (false, b) := by
  simp [App.norma_existe, App.fetch_html, hok]

theorem App.spend_slack (b : App.Budget) (hok : b.ok = true) (f : Nat)
    (hb : b.max_requests - b.used ≤ f + 1) :
    (b.spend 1).max_requests - (b.spend 1).used ≤ f := by
  have := hok
  simp only [App.Budget.ok, decide_eq_true_eq] at this
  simp only [App.Budget.spend]
  omega

theorem App.expLoop_inv (w : World) (x : String → String) (tipo : String) (ano : Int)
    (maxL : Nat) :
    ∀ (fuel lo hi : Nat) (b : App.Budget), b.max_requests - b.used ≤ fuel →
      (∀ p ∈ (App.expLoop w x tipo ano maxL lo hi b).2.2.2, hi ≤ p.1 ∧ p.1 ≤ maxL) ∧
      (∀ p ∈ (App.expLoop w x tipo ano maxL lo hi b).2.2.2, p.2 = true →
        p.1 ≤ (App.expLoop w x tipo ano maxL lo hi b).1) ∧
      ((App.expLoop w x tipo ano maxL lo hi b).1 = lo ∨
        ((App.expLoop w x tipo ano maxL lo hi b).1, true) ∈
          (App.expLoop w x tipo ano maxL lo hi b).2.2.2) ∧
      ((App.expLoop w x tipo ano maxL lo hi b).2.2.1.used =
          b.used + (App.expLoop w x tipo ano maxL lo hi b).2.2.2.length ∧
        (App.expLoop w x tipo ano maxL lo hi b).2.2.1.max_requests = b.max_requests) := by
  intro fuel
  induction fuel with
  | zero =>
    intro lo hi b hb
    have hok : b.ok = false := by
      simp only [App.Budget.ok, decide_eq_false_iff_not]
      omega
    rw [App.expLoop, dif_neg (by simp [hok])]
    simp
  | succ f ih =>
    intro lo hi b hb
    by_cases hcond : hi ≤ maxL ∧ b.ok = true
    · rw [App.expLoop, dif_pos hcond]
      rcases hne : App.norma_existe w x tipo hi ano b with ⟨e, b'⟩
      simp only [hne]
      have hb' : b' = b.spend 1 := by
        have h2 := congrArg Prod.snd hne
        rw [App.norma_existe_budget, if_pos hcond.2] at h2
        exact h2.symm
      have hslack : b'.max_requests - b'.used ≤ f := by
        rw [hb']
        exact App.spend_slack b hcond.2 f hb
      have hused' : b'.used = b.used + 1 := by rw [hb']; rfl
      have hmax' : b'.max_requests = b.max_requests := by rw [hb']; rfl
      by_cases he : e = true
      · subst he
        simp only [if_true]
        obtain ⟨ih1, ih2, ih3, ih4⟩ := ih hi (hi * 2) b' hslack
        refine ⟨?_, ?_, ?_, ?_, ?_⟩
        · intro p hp
          rcases List.mem_cons.1 hp with rfl | hp
          · exact ⟨le_refl _, hcond.1⟩
          · have := ih1 p hp
            constructor <;> omega
        · intro p hp hpt
          rcases List.mem_cons.1 hp with rfl | hp
          · rcases ih3 with h | h
            · omega
            · have := (ih1 _ h).1
              omega
          · exact ih2 p hp hpt
        · rcases ih3 with h | h
          · exact Or.inr (by rw [h]; exact List.mem_cons_self _ _)
          · exact Or.inr (List.mem_cons_of_mem _ h)
        · simp only [List.length_cons]
          omega
        · omega
      · simp only [Bool.not_eq_true] at he
        subst he
        simp only [Bool.false_eq_true, if_false]
        refine ⟨?_, ?_, ?_, ?_, ?_⟩
        · intro p hp
          rcases List.mem_cons.1 hp with rfl | hp
          · exact ⟨le_refl _, hcond.1⟩
          · simp at hp
        · intro p hp hpt
          rcases List.mem_cons.1 hp with rfl | hp
          · simp at hpt
          · simp at hp
        · exact Or.inl trivial
        · simp only [List.length_cons, List.length_nil]
          omega
        · omega
    · rw [App.expLoop, dif_neg hcond]
      simp

theorem App.binLoop_inv (w : World) (x : String → String) (tipo : String) (ano : Int) :
    ∀ (fuel left right : Nat) (b : App.Budget), b.max_requests - b.used ≤ fuel →
      (∀ p ∈ (App.binLoop w x tipo ano left right b).2.2, left < p.1 ∧ p.1 < right) ∧
      (∀ p ∈ (App.binLoop w x tipo ano left right b).2.2, p.2 = true →
        p.1 ≤ (App.binLoop w x tipo ano left right b).1) ∧
      ((App.binLoop w x tipo ano left right b).1 = left ∨
        ((App.binLoop w x tipo ano left right b).1, true) ∈
          (App.binLoop w x tipo ano left right b).2.2) ∧
      (left ≤ (App.binLoop w x tipo ano left right b).1) ∧
      ((App.binLoop w x tipo ano left right b).2.1.used =
          b.used + (App.binLoop w x tipo ano left right b).2.2.length ∧
        (App.binLoop w x tipo ano left right b).2.1.max_requests = b.max_requests) := by
  intro fuel
  induction fuel with
  | zero =>
    intro left right b hb
    have hok : b.ok = false := by
      simp only [App.Budget.ok, decide_eq_false_iff_not]
      omega
    rw [App.binLoop, dif_neg (by simp [hok])]
    simp
  | succ f ih =>
    intro left right b hb
    by_cases hcond : left + 1 < right ∧ b.ok = true
    · have hmid : left < (left + right) / 2 ∧ (left + right) / 2 < right := by
        obtain ⟨h1, -⟩ := hcond
        omega
      rw [App.binLoop, dif_pos hcond]
      rcases hne : App.norma_existe w x tipo ((left + right) / 2) ano b with ⟨e, b'⟩
      simp only [hne]
      have hb' : b' = b.spend 1 := by
        have h2 := congrArg Prod.snd hne
        rw [App.norma_existe_budget, if_pos hcond.2] at h2
        exact h2.symm
      have hslack : b'.max_requests - b'.used ≤ f := by
        rw [hb']
        exact App.spend_slack b hcond.2 f hb
      have hused' : b'.used = b.used + 1 := by rw [hb']; rfl
      have hmax' : b'.max_requests = b.max_requests := by rw [hb']; rfl
      by_cases he : e = true
      · subst he
        simp only [if_true]
        obtain ⟨ih1, ih2, ih3, ih4, ih5⟩ := ih ((left + right) / 2) right b' hslack
        refine ⟨?_, ?_, ?_, ?_, ?_, ?_⟩
        · intro p hp
          rcases List.mem_cons.1 hp with rfl | hp
          · exact hmid
          · have := ih1 p hp
            constructor <;> omega
        · intro p hp hpt
          rcases List.mem_cons.1 hp with rfl | hp
          · omega
          · exact ih2 p hp hpt
        · rcases ih3 with h | h
          · exact Or.inr (by rw [h]; exact List.mem_cons_self _ _)
          · exact Or.inr (List.mem_cons_of_mem _ h)
        · omega
        · simp only [List.length_cons]
          omega
        · omega
      · simp only [Bool.not_eq_true] at he
        subst he
        simp only [Bool.false_eq_true, if_false]
        obtain ⟨ih1, ih2, ih3, ih4, ih5⟩ := ih left ((left + right) / 2) b' hslack
        refine ⟨?_, ?_, ?_, ?_, ?_, ?_⟩
        · intro p hp
          rcases List.mem_cons.1 hp with rfl | hp
          · exact hmid
          · have := ih1 p hp
            constructor <;> omega
        · intro p hp hpt
          rcases List.mem_cons.1 hp with rfl | hp
          · simp at hpt
          · exact ih2 p hp hpt
        · rcases ih3 with h | h
          · exact Or.inl h
          · exact Or.inr (List.mem_cons_of_mem _ h)
        · exact ih4
        · simp only [List.length_cons]
          omega
        · omega
    · rw [App.binLoop, dif_neg hcond]
      simp

/-- C7: the prober returns 0 when the budget is already exhausted or when
number 1 does not exist; whenever it returns a nonzero value that value is
one whose probe answered true and it dominates every probe that answered
true; no probe — in the growth loop or the binary search — ever targets a
candidate above the hard ceiling; and (last conjunct) in every run in which
the budget allowed the first probe and number 1 was confirmed to exist —
in particular every run that exhausts the budget mid-probe after that
confirmation — the returned value is nonzero, is itself a probe that
answered true, and dominates every probe that answered true, so the best
confirmed number so far is returned rather than 0 or an error. -/
theorem C7_prober_edge_cases :
    ∀ (w : World) (x : String → String) (tipo : String) (ano : Int)
      (b : App.Budget) (maxL : Nat),
      (b.ok = false → (App.achar_ultimo_numero w x tipo ano b maxL).1 = 0) ∧
      (b.ok = true → (App.norma_existe w x tipo 1 ano b).1 = false →
        (App.achar_ultimo_numero w x tipo ano b maxL).1 = 0) ∧
      ((App.achar_ultimo_numero w x tipo ano b maxL).1 = 0 ∨
        (((App.achar_ultimo_numero w x tipo ano b maxL).1, true) ∈
            (App.achar_ultimo_numero w x tipo ano b maxL).2.2 ∧
         ∀ p ∈ (App.achar_ultimo_numero w x tipo ano b maxL).2.2, p.2 = true →
           p.1 ≤ (App.achar_ultimo_numero w x tipo ano b maxL).1)) ∧
      (1 ≤ maxL → ∀ p ∈ (App.achar_ultimo_numero w x tipo ano b maxL).2.2,
        p.1 ≤ maxL) ∧
      (b.ok = true → (App.norma_existe w x tipo 1 ano b).1 = true →
        1 ≤ (App.achar_ultimo_numero w x tipo ano b maxL).1 ∧
        (((App.achar_ultimo_numero w x tipo ano b maxL).1, true) ∈
          (App.achar_ultimo_numero w x tipo ano b maxL).2.2 ∧
        ∀ p ∈ (App.achar_ultimo_numero w x tipo ano b maxL).2.2, p.2 = true →
          p.1 ≤ (App.achar_ultimo_numero w x tipo ano b maxL).1)) := by
  intro w x tipo ano b maxL
  by_cases hok : b.ok = true
  · by_cases hn : (App.norma_existe w x tipo 1 ano b).1 = true
    · -- the interesting branch: probe of 1 succeeded
      simp only [App.achar_ultimo_numero, hok, not_true, if_false, hn,
        Bool.not_eq_true, if_neg (by simp : ¬ (true = false))]
      set b1 := (App.norma_existe w x tipo 1 ano b).2 with hb1
      set E := App.expLoop w x tipo ano maxL 1 2 b1 with hE
      set BL := App.binLoop w x tipo ano E.1 (min E.2.1 maxL) E.2.2.1 with hBL
      obtain ⟨e1, e2, e3, e4⟩ :=
        App.expLoop_inv w x tipo ano maxL (b1.max_requests - b1.used) 1 2 b1 le_rfl
      rw [← hE] at e1 e2 e3 e4
      obtain ⟨g1, g2, g3, g4, g5⟩ :=
        App.binLoop_inv w x tipo ano (E.2.2.1.max_requests - E.2.2.1.used)
          E.1 (min E.2.1 maxL) E.2.2.1 le_rfl
      rw [← hBL] at g1 g2 g3 g4 g5
      have hE1pos : 1 ≤ E.1 := by
        rcases e3 with h | h
        · omega
        · have := (e1 _ h).1
          omega
      refine ⟨fun hc => by simp [hok] at hc, fun _ hc => by simp [hn] at hc,
        Or.inr ⟨?_, ?_⟩, ?_, fun _ _ => ⟨?_, ?_, ?_⟩⟩
      · rcases g3 with h | h
        · rcases e3 with h' | h'
          · rw [h, h']
            exact List.mem_cons_self _ _
          · rw [h]
            exact List.mem_cons_of_mem _ (List.mem_append.2 (Or.inl h'))
        · exact List.mem_cons_of_mem _ (List.mem_append.2 (Or.inr h))
      · intro p hp hpt
        rcases List.mem_cons.1 hp with rfl | hp
        · omega
        · rcases List.mem_append.1 hp with hp | hp
          · have := e2 p hp hpt
            omega
          · exact g2 p hp hpt
      · intro hmax p hp
        rcases List.mem_cons.1 hp with rfl | hp
        · exact hmax
        · rcases List.mem_append.1 hp with hp | hp
          · exact (e1 p hp).2
          · have := (g1 p hp).2
            omega
      · omega
      · rcases g3 with h | h
        · rcases e3 with h' | h'
          · rw [h, h']
            exact List.mem_cons_self _ _
          · rw [h]
            exact List.mem_cons_of_mem _ (List.mem_append.2 (Or.inl h'))
        · exact List.mem_cons_of_mem _ (List.mem_append.2 (Or.inr h))
      · intro p hp hpt
        rcases List.mem_cons.1 hp with rfl | hp
        · omega
        · rcases List.mem_append.1 hp with hp | hp
          · have := e2 p hp hpt
            omega
          · exact g2 p hp hpt
    · -- probe of 1 failed
      simp only [Bool.not_eq_true] at hn
      simp only [App.achar_ultimo_numero, hok, not_true, if_false, hn]
      refine ⟨fun hc => by simp [hok] at hc, fun _ _ => by simp, Or.inl (by simp), ?_,
        fun _ hc => by simp [hn] at hc⟩
      intro hmax p hp
      simp only [Bool.not_eq_true, if_pos (by simp : (false = false))] at hp
      rcases List.mem_cons.1 hp with rfl | hp
      · exact hmax
      · simp at hp
  · have hok' : b.ok = false := by
      revert hok
      cases b.ok <;> simp
    simp only [App.achar_ultimo_numero, hok', Bool.false_eq_true, not_false_iff, if_true]
    exact ⟨fun _ => trivial, fun hc => by simp [hok'] at hc, Or.inl trivial,
      fun _ p hp => by simp at hp, fun hc _ => by simp [hok'] at hc⟩

theorem C7_prober_edge_cases_witness :
    (App.achar_ultimo_numero wAll200 idExtract "LEI" 2020 ⟨0, 0⟩ 300000).1 = 0 ∧
    (App.achar_ultimo_numero wNetErr idExtract "LEI" 2020 ⟨5, 0⟩ 300000).1 = 0 ∧
    (1 : Nat) ≤ 300000 ∧
    1 ≤ (App.achar_ultimo_numero (worldContig 300000) idExtract "LEI" 2020
      ⟨10, 0⟩ 300000).1 :=
  ⟨(C7_prober_edge_cases wAll200 idExtract "LEI" 2020 ⟨0, 0⟩ 300000).1 (by decide),
   (C7_prober_edge_cases wNetErr idExtract "LEI" 2020 ⟨5, 0⟩ 300000).2.1 (by decide) (by decide),
   (C7_prober_edge_cases wNetErr idExtract "LEI" 2020 ⟨5, 0⟩ 300000).2.2.2.1 (by decide)
     (1, false) (by decide),
   ((C7_prober_edge_cases (worldContig 300000) idExtract "LEI" 2020 ⟨10, 0⟩ 300000).2.2.2.2
     (by decide) (by decide)).1⟩

-- ==================================================================
-- C1: prober correctness under the contiguity assumption
-- ==================================================================

theorem clog2_step {d' d : Nat} (hd : 2 ≤ d) (h : d' ≤ (d + 1) / 2) :
    Nat.clog 2 d' + 1 ≤ Nat.clog 2 d := by
  have heq := Nat.clog_of_two_le (b := 2) (n := d) (by norm_num) hd
  rw [heq]
  have hmono := Nat.clog_mono_right 2 (h.trans (by omega : (d + 1) / 2 ≤ (d + 2 - 1) / 2))
  omega

theorem two_pow_le_clog {j N : Nat} (h : 2 ^ j ≤ N) : j < Nat.clog 2 (N + 1) := by
  have h1 : N + 1 ≤ 2 ^ Nat.clog 2 (N + 1) := Nat.le_pow_clog (by norm_num) _
  have h2 : 2 ^ j < 2 ^ Nat.clog 2 (N + 1) := by omega
  exact (Nat.pow_lt_pow_iff_right (by norm_num)).1 h2

theorem App.ok_of_slack {b : App.Budget} {k : Nat} (h : b.used + k ≤ b.max_requests)
    (hk : 1 ≤ k) : b.ok = true := by
  simp only [App.Budget.ok, decide_eq_true_eq]
  omega

theorem App.binLoop_exact (w : World) (x : String → String) (tipo : String) (ano : Int)
    (N : Nat)
    (hnet : ∀ (n : Nat) (b' : App.Budget), b'.ok = true →
      App.norma_existe w x tipo n ano b' = (decide (1 ≤ n ∧ n ≤ N), b'.spend 1)) :
    ∀ (fuel l r : Nat) (b : App.Budget), b.max_requests - b.used ≤ fuel →
      1 ≤ l → l ≤ N → N < r →
      b.used + Nat.clog 2 (r - l) ≤ b.max_requests →
      (App.binLoop w x tipo ano l r b).1 = N ∧
      (App.binLoop w x tipo ano l r b).2.2.length ≤ Nat.clog 2 (r - l) := by
  intro fuel
  induction fuel with
  | zero =>
    intro l r b hb h1 h2 h3 hbud
    by_cases hlr : l + 1 < r
    · have hpos : 0 < Nat.clog 2 (r - l) := Nat.clog_pos (by norm_num) (by omega)
      omega
    · rw [App.binLoop, dif_neg (by tauto)]
      exact ⟨by omega, by simp⟩
  | succ f ih =>
    intro l r b hb h1 h2 h3 hbud
    by_cases hlr : l + 1 < r
    · have hpos : 0 < Nat.clog 2 (r - l) := Nat.clog_pos (by norm_num) (by omega)
      have hok : b.ok = true := App.ok_of_slack hbud (by omega)
      rw [App.binLoop, dif_pos ⟨hlr, hok⟩]
      have hne := hnet ((l + r) / 2) b hok
      simp only [hne]
      have hmid : l < (l + r) / 2 ∧ (l + r) / 2 < r := by omega
      have hslack : (b.spend 1).max_requests - (b.spend 1).used ≤ f :=
        App.spend_slack b hok f hb
      have hsp : (b.spend 1).used = b.used + 1 := rfl
      have hsm : (b.spend 1).max_requests = b.max_requests := rfl
      by_cases hmN : (l + r) / 2 ≤ N
      · have hd : decide (1 ≤ (l + r) / 2 ∧ (l + r) / 2 ≤ N) = true := by
          simp only [decide_eq_true_eq]
          omega
        simp only [hd, if_true]
        have hstep : Nat.clog 2 (r - (l + r) / 2) + 1 ≤ Nat.clog 2 (r - l) :=
          clog2_step (by omega) (by omega)
        obtain ⟨ihr, ihl⟩ := ih ((l + r) / 2) r (b.spend 1) hslack (by omega) hmN h3
          (by omega)
        refine ⟨ihr, ?_⟩
        simp only [List.length_cons]
        omega
      · have hd : decide (1 ≤ (l + r) / 2 ∧ (l + r) / 2 ≤ N) = false := by
          simp only [decide_eq_false_iff_not]
          omega
        simp only [hd, Bool.false_eq_true, if_false]
        have hstep : Nat.clog 2 ((l + r) / 2 - l) + 1 ≤ Nat.clog 2 (r - l) :=
          clog2_step (by omega) (by omega)
        obtain ⟨ihr, ihl⟩ := ih l ((l + r) / 2) (b.spend 1) hslack h1 h2 (by omega)
          (by omega)
        refine ⟨ihr, ?_⟩
        simp only [List.length_cons]
        omega
    · rw [App.binLoop, dif_neg (by tauto)]
      exact ⟨by omega, by simp⟩

theorem App.expLoop_contig (w : World) (x : String → String) (tipo : String) (ano : Int)
    (maxL N : Nat)
    (hnet : ∀ (n : Nat) (b' : App.Budget), b'.ok = true →
      App.norma_existe w x tipo n ano b' = (decide (1 ≤ n ∧ n ≤ N), b'.spend 1))
    (hNceil : N < maxL) :
    ∀ (fuel j : Nat) (b : App.Budget), b.max_requests - b.used ≤ fuel →
      2 ^ j ≤ N →
      b.used + (Nat.clog 2 (N + 1) - j) ≤ b.max_requests →
      ∃ j', (App.expLoop w x tipo ano maxL (2 ^ j) (2 ^ (j + 1)) b).1 = 2 ^ j' ∧
        (App.expLoop w x tipo ano maxL (2 ^ j) (2 ^ (j + 1)) b).2.1 = 2 ^ (j' + 1) ∧
        2 ^ j' ≤ N ∧ j ≤ j' ∧
        N < min (App.expLoop w x tipo ano maxL (2 ^ j) (2 ^ (j + 1)) b).2.1 maxL ∧
        (App.expLoop w x tipo ano maxL (2 ^ j) (2 ^ (j + 1)) b).2.2.1.used =
          b.used + (App.expLoop w x tipo ano maxL (2 ^ j) (2 ^ (j + 1)) b).2.2.2.length ∧
        (App.expLoop w x tipo ano maxL (2 ^ j) (2 ^ (j + 1)) b).2.2.2.length ≤
          Nat.clog 2 (N + 1) - j ∧
        (App.expLoop w x tipo ano maxL (2 ^ j) (2 ^ (j + 1)) b).2.2.1.max_requests =
          b.max_requests := by
  intro fuel
  induction fuel with
  | zero =>
    intro j b hb hjN hbud
    have hjm : j < Nat.clog 2 (N + 1) := two_pow_le_clog hjN
    by_cases hcut : 2 ^ (j + 1) ≤ maxL
    · have hok : b.ok = true := App.ok_of_slack hbud (by omega)
      simp only [App.Budget.ok, decide_eq_true_eq] at hok
      omega
    · rw [App.expLoop, dif_neg (by tauto)]
      refine ⟨j, rfl, rfl, hjN, le_rfl, ?_, by simp, by simp, rfl⟩
      show N < min (2 ^ (j + 1)) maxL
      omega
  | succ f ih =>
    intro j b hb hjN hbud
    have hjm : j < Nat.clog 2 (N + 1) := two_pow_le_clog hjN
    by_cases hcut : 2 ^ (j + 1) ≤ maxL
    · have hok : b.ok = true := App.ok_of_slack hbud (by omega)
      rw [App.expLoop, dif_pos ⟨hcut, hok⟩]
      have hne := hnet (2 ^ (j + 1)) b hok
      simp only [hne]
      have hslack : (b.spend 1).max_requests - (b.spend 1).used ≤ f :=
        App.spend_slack b hok f hb
      have hpowpos : 1 ≤ 2 ^ (j + 1) := Nat.one_le_two_pow
      by_cases hle : 2 ^ (j + 1) ≤ N
      · have hd : decide (1 ≤ 2 ^ (j + 1) ∧ 2 ^ (j + 1) ≤ N) = true := by
          simp only [decide_eq_true_eq]
          exact ⟨hpowpos, hle⟩
        simp only [hd, if_true]
        have hmul : 2 ^ (j + 1) * 2 = 2 ^ (j + 1 + 1) := by ring
        rw [hmul]
        obtain ⟨j', c1, c2, c3, c4, c5, c6, c7, c8⟩ := ih (j + 1) (b.spend 1) hslack hle
          (by
            have : (b.spend 1).used = b.used + 1 := rfl
            have hm : (b.spend 1).max_requests = b.max_requests := rfl
            omega)
        refine ⟨j', c1, c2, c3, by omega, c5, ?_, ?_, c8⟩
        · simp only [List.length_cons]
          have : (b.spend 1).used = b.used + 1 := rfl
          omega
        · simp only [List.length_cons]
          omega
      · have hd : decide (1 ≤ 2 ^ (j + 1) ∧ 2 ^ (j + 1) ≤ N) = false := by
          simp only [decide_eq_false_iff_not]
          omega
        simp only [hd, Bool.false_eq_true, if_false]
        refine ⟨j, rfl, rfl, hjN, le_rfl, ?_, ?_, ?_, rfl⟩
        · show N < min (2 ^ (j + 1)) maxL
          omega
        · simp only [List.length_cons, List.length_nil]
          rfl
        · simp only [List.length_cons, List.length_nil]
          omega
    · rw [App.expLoop, dif_neg (by tauto)]
      refine ⟨j, rfl, rfl, hjN, le_rfl, ?_, by simp, by simp, rfl⟩
      show N < min (2 ^ (j + 1)) maxL
      omega

/-- C1 (amended): for every (tipo, ano) whose existing numbers are exactly
the contiguous range `1..N` with `N` strictly below the hard ceiling
300000, and a budget with at least `2 * ⌈log₂ (N+1)⌉` units of slack
(sufficient for all probes), `achar_ultimo_numero` returns exactly `N`,
makes at most `2 * ⌈log₂ (N+1)⌉` existence probes, and each probe spends
exactly one budget unit.  (At `N` equal to the ceiling itself the prober
returns `N - 1` instead — see the counterexample theorem.) -/
theorem C1_prober_returns_last_contiguous :
    ∀ (w : World) (x : String → String) (tipo : String) (ano : Int)
      (N : Nat) (b : App.Budget),
      1 ≤ N → N < 300000 →
      (∀ (n : Nat) (b' : App.Budget), b'.ok = true →
        App.norma_existe w x tipo n ano b' = (decide (1 ≤ n ∧ n ≤ N), b'.spend 1)) →
      b.used + 2 * Nat.clog 2 (N + 1) ≤ b.max_requests →
      (App.achar_ultimo_numero w x tipo ano b 300000).1 = N ∧
      (App.achar_ultimo_numero w x tipo ano b 300000).2.2.length ≤
        2 * Nat.clog 2 (N + 1) ∧
      (App.achar_ultimo_numero w x tipo ano b 300000).2.1.used =
        b.used + (App.achar_ultimo_numero w x tipo ano b 300000).2.2.length := by
  intro w x tipo ano N b hN hceil hnet hbud
  have hm1 : 1 ≤ Nat.clog 2 (N + 1) := Nat.clog_pos (by norm_num) (by omega)
  have hok : b.ok = true := App.ok_of_slack hbud (by omega)
  have hne1 := hnet 1 b hok
  have hd1 : decide (1 ≤ 1 ∧ 1 ≤ N) = true := by
    simp only [decide_eq_true_eq]
    omega
  rw [hd1] at hne1
  simp only [App.achar_ultimo_numero, hok, not_true, if_false, hne1,
    Bool.not_eq_true, if_neg (by simp : ¬ (true = false))]
  set E := App.expLoop w x tipo ano 300000 1 2 (b.spend 1) with hE
  set BL := App.binLoop w x tipo ano E.1 (min E.2.1 300000) E.2.2.1 with hBL
  have hsp : (b.spend 1).used = b.used + 1 := rfl
  have hsm : (b.spend 1).max_requests = b.max_requests := rfl
  obtain ⟨j', c1, c2, c3, c4, c5, c6, c7, c8⟩ :=
    App.expLoop_contig w x tipo ano 300000 N hnet hceil
      ((b.spend 1).max_requests - (b.spend 1).used) 0 (b.spend 1) le_rfl
      (by simpa using hN) (by omega)
  simp only [pow_zero, Nat.zero_add, pow_one, Nat.sub_zero] at c1 c2 c5 c6 c7 c8
  rw [← hE] at c1 c2 c5 c6 c7 c8
  have hj'm : j' < Nat.clog 2 (N + 1) := two_pow_le_clog c3
  have hrE : min E.2.1 300000 - E.1 ≤ 2 ^ j' := by
    have h1 : min E.2.1 300000 ≤ E.2.1 := min_le_left _ _
    rw [c2] at h1
    rw [c1]
    have : (2 : Nat) ^ (j' + 1) = 2 ^ j' + 2 ^ j' := by ring
    omega
  have hclogr : Nat.clog 2 (min E.2.1 300000 - E.1) ≤ j' := by
    have := Nat.clog_mono_right 2 hrE
    rwa [Nat.clog_pow 2 j' (by norm_num)] at this
  have hpowpos : 1 ≤ 2 ^ j' := Nat.one_le_two_pow
  obtain ⟨r1, r2⟩ := App.binLoop_exact w x tipo ano N hnet
    (E.2.2.1.max_requests - E.2.2.1.used) E.1 (min E.2.1 300000) E.2.2.1 le_rfl
    (by rw [c1]; exact hpowpos) (by rw [c1]; exact c3) c5 (by omega)
  rw [← hBL] at r1 r2
  obtain ⟨g1, g2, g3, g4, g5⟩ :=
    App.binLoop_inv w x tipo ano (E.2.2.1.max_requests - E.2.2.1.used)
      E.1 (min E.2.1 300000) E.2.2.1 le_rfl
  rw [← hBL] at g5
  refine ⟨r1, ?_, ?_⟩
  · simp only [List.length_cons, List.length_append]
    omega
  · simp only [List.length_cons, List.length_append]
    omega

theorem takeWhile_append_sep (p : Char → Bool) :
    ∀ (l : List Char) (y : Char) (t : List Char), (∀ c ∈ l, p c = true) → p y = false →
      (l ++ y :: t).takeWhile p = l := by
  intro l
  induction l with
  | nil =>
    intro y t _ hy
    simp [List.takeWhile_cons, hy]
  | cons c l' ih =>
    intro y t hall hy
    have hc : p c = true := hall c (List.mem_cons_self _ _)
    simp [List.takeWhile_cons, hc, ih y t (fun d hd => hall d (List.mem_cons_of_mem _ hd)) hy]

theorem link_for_LEI_data (n : Nat) :
    (link_for "LEI" n 2020 "Original").data =
      urlNumPrefix.data ++ (decRepr n ++ '/' :: ("2020/").data) := by
  have e1 : urlNumPrefix.data =
      ("https://www.almg.gov.br/legislacao-mineira/texto/").data ++
        ("LEI").data ++ ("/").data := by decide
  have e2 : ('/' :: ("2020/").data : List Char) =
      ("/").data ++ ((intStr 2020).data ++ ("/").data) := by decide
  show (base_url "LEI" n 2020 ++ "/").data = _
  rw [e1, e2]
  simp [base_url, natStr, String.data_append, List.append_assoc]

theorem decodeNum_link (n : Nat) : decodeNum (link_for "LEI" n 2020 "Original") = n := by
  unfold decodeNum
  rw [link_for_LEI_data, List.drop_left,
    takeWhile_append_sep Char.isDigit (decRepr n) '/' (("2020/").data)
      (fun c hc => decReprAux_isDigit (n + 1) n c hc) (by decide)]
  exact valDigits_decRepr n

theorem worldContig_norma (N : Nat) :
    ∀ (n : Nat) (b : App.Budget), b.ok = true →
      App.norma_existe (worldContig N) idExtract "LEI" n 2020 b =
        (decide (1 ≤ n ∧ n ≤ N), b.spend 1) := by
  intro n b hok
  have hdec : decodeNum (link_for "LEI" n 2020 "Original") = n := decodeNum_link n
  simp only [App.norma_existe, App.fetch_html, hok, if_true, worldContig, hdec]
  by_cases hP : 1 ≤ n ∧ n ≤ N
  · have hlen : (50 < (idExtract longText).length) := by decide
    have hne : ¬ (longText = "") := by decide
    simp [hP, hlen, hne]
  · simp [hP]

theorem C1_prober_returns_last_contiguous_witness :
    (App.achar_ultimo_numero (worldContig 3) idExtract "LEI" 2020 ⟨100, 0⟩ 300000).1 = 3 ∧
    (App.achar_ultimo_numero (worldContig 3) idExtract "LEI" 2020 ⟨100, 0⟩ 300000).2.2.length ≤ 5 := by
  have hclog : Nat.clog 2 (3 + 1) ≤ 2 :=
    (Nat.le_pow_iff_clog_le (by norm_num)).1 (by norm_num)
  have h := C1_prober_returns_last_contiguous (worldContig 3) idExtract "LEI" 2020 3
    ⟨100, 0⟩ (by norm_num) (by norm_num) (worldContig_norma 3)
    (by show 0 + 2 * Nat.clog 2 (3 + 1) ≤ 100; omega)
  exact ⟨h.1, le_trans h.2.1 (by omega)⟩

theorem App.expLoop_alltrue (w : World) (x : String → String) (tipo : String) (ano : Int)
    (maxL N : Nat)
    (hnet : ∀ (n : Nat) (b' : App.Budget), b'.ok = true →
      App.norma_existe w x tipo n ano b' = (decide (1 ≤ n ∧ n ≤ N), b'.spend 1))
    (hmaxN : maxL ≤ N) :
    ∀ (fuel j : Nat) (b : App.Budget), b.max_requests - b.used ≤ fuel →
      2 ^ j ≤ maxL →
      b.used + (Nat.clog 2 (maxL + 1) - j) ≤ b.max_requests →
      ∃ j', (App.expLoop w x tipo ano maxL (2 ^ j) (2 ^ (j + 1)) b).1 = 2 ^ j' ∧
        (App.expLoop w x tipo ano maxL (2 ^ j) (2 ^ (j + 1)) b).2.1 = 2 ^ (j' + 1) ∧
        2 ^ j' ≤ maxL ∧ maxL < 2 ^ (j' + 1) ∧
        (App.expLoop w x tipo ano maxL (2 ^ j) (2 ^ (j + 1)) b).2.2.1.used ≤
          b.used + (Nat.clog 2 (maxL + 1) - j) ∧
        (App.expLoop w x tipo ano maxL (2 ^ j) (2 ^ (j + 1)) b).2.2.1.max_requests =
          b.max_requests := by
  intro fuel
  induction fuel with
  | zero =>
    intro j b hb hjm hbud
    have hjlt : j < Nat.clog 2 (maxL + 1) := two_pow_le_clog hjm
    by_cases hcut : 2 ^ (j + 1) ≤ maxL
    · have hok : b.ok = true := App.ok_of_slack hbud (by omega)
      simp only [App.Budget.ok, decide_eq_true_eq] at hok
      omega
    · rw [App.expLoop, dif_neg (by tauto)]
      refine ⟨j, rfl, rfl, hjm, by omega, ?_, rfl⟩
      show b.used ≤ b.used + (Nat.clog 2 (maxL + 1) - j)
      omega
  | succ f ih =>
    intro j b hb hjm hbud
    have hjlt : j < Nat.clog 2 (maxL + 1) := two_pow_le_clog hjm
    by_cases hcut : 2 ^ (j + 1) ≤ maxL
    · have hok : b.ok = true := App.ok_of_slack hbud (by omega)
      rw [App.expLoop, dif_pos ⟨hcut, hok⟩]
      have hne := hnet (2 ^ (j + 1)) b hok
      simp only [hne]
      have hd : decide (1 ≤ 2 ^ (j + 1) ∧ 2 ^ (j + 1) ≤ N) = true := by
        simp only [decide_eq_true_eq]
        exact ⟨Nat.one_le_two_pow, le_trans hcut hmaxN⟩
      simp only [hd, if_true]
      have hslack : (b.spend 1).max_requests - (b.spend 1).used ≤ f :=
        App.spend_slack b hok f hb
      have hsp : (b.spend 1).used = b.used + 1 := rfl
      have hsm : (b.spend 1).max_requests = b.max_requests := rfl
      have hmul : 2 ^ (j + 1) * 2 = 2 ^ (j + 1 + 1) := by ring
      rw [hmul]
      obtain ⟨j', c1, c2, c3, c4, c5, c6⟩ := ih (j + 1) (b.spend 1) hslack hcut (by omega)
      exact ⟨j', c1, c2, c3, c4, by omega, by omega⟩
    · rw [App.expLoop, dif_neg (by tauto)]
      refine ⟨j, rfl, rfl, hjm, by omega, ?_, rfl⟩
      show b.used ≤ b.used + (Nat.clog 2 (maxL + 1) - j)
      omega

theorem App.binLoop_alltrue (w : World) (x : String → String) (tipo : String) (ano : Int)
    (N : Nat)
    (hnet : ∀ (n : Nat) (b' : App.Budget), b'.ok = true →
      App.norma_existe w x tipo n ano b' = (decide (1 ≤ n ∧ n ≤ N), b'.spend 1)) :
    ∀ (fuel l r : Nat) (b : App.Budget), b.max_requests - b.used ≤ fuel →
      1 ≤ l → l < r → r ≤ N + 1 →
      b.used + Nat.clog 2 (r - l) ≤ b.max_requests →
      (App.binLoop w x tipo ano l r b).1 = r - 1 := by
  intro fuel
  induction fuel with
  | zero =>
    intro l r b hb h1 h2 h3 hbud
    by_cases hlr : l + 1 < r
    · have hpos : 0 < Nat.clog 2 (r - l) := Nat.clog_pos (by norm_num) (by omega)
      omega
    · rw [App.binLoop, dif_neg (by tauto)]
      omega
  | succ f ih =>
    intro l r b hb h1 h2 h3 hbud
    by_cases hlr : l + 1 < r
    · have hpos : 0 < Nat.clog 2 (r - l) := Nat.clog_pos (by norm_num) (by omega)
      have hok : b.ok = true := App.ok_of_slack hbud (by omega)
      rw [App.binLoop, dif_pos ⟨hlr, hok⟩]
      have hne := hnet ((l + r) / 2) b hok
      simp only [hne]
      have hd : decide (1 ≤ (l + r) / 2 ∧ (l + r) / 2 ≤ N) = true := by
        simp only [decide_eq_true_eq]
        omega
      simp only [hd, if_true]
      have hslack : (b.spend 1).max_requests - (b.spend 1).used ≤ f :=
        App.spend_slack b hok f hb
      have hsp : (b.spend 1).used = b.used + 1 := rfl
      have hsm : (b.spend 1).max_requests = b.max_requests := rfl
      have hstep : Nat.clog 2 (r - (l + r) / 2) + 1 ≤ Nat.clog 2 (r - l) :=
        clog2_step (by omega) (by omega)
      exact ih ((l + r) / 2) r (b.spend 1) hslack (by omega) (by omega) h3 (by omega)
    · rw [App.binLoop, dif_neg (by tauto)]
      omega

theorem App.expLoop_alltrue_start (w : World) (x : String → String) (tipo : String)
    (ano : Int) (maxL N : Nat)
    (hnet : ∀ (n : Nat) (b' : App.Budget), b'.ok = true →
      App.norma_existe w x tipo n ano b' = (decide (1 ≤ n ∧ n ≤ N), b'.spend 1))
    (hmaxN : maxL ≤ N) (b : App.Budget) (h1m : 1 ≤ maxL)
    (hbud : b.used + Nat.clog 2 (maxL + 1) ≤ b.max_requests) :
    ∃ j', (App.expLoop w x tipo ano maxL 1 2 b).1 = 2 ^ j' ∧
      (App.expLoop w x tipo ano maxL 1 2 b).2.1 = 2 ^ (j' + 1) ∧
      2 ^ j' ≤ maxL ∧ maxL < 2 ^ (j' + 1) ∧
      (App.expLoop w x tipo ano maxL 1 2 b).2.2.1.used ≤ b.used + Nat.clog 2 (maxL + 1) ∧
      (App.expLoop w x tipo ano maxL 1 2 b).2.2.1.max_requests = b.max_requests := by
  have h := App.expLoop_alltrue w x tipo ano maxL N hnet hmaxN
    (b.max_requests - b.used) 0 b le_rfl (by simpa using h1m) (by omega)
  simpa using h

theorem App.achar_ceiling_aux (w : World) (x : String → String) (b : App.Budget)
    (hu : b.used = 0) (hm : b.max_requests = 100)
    (hnet : ∀ (n : Nat) (b' : App.Budget), b'.ok = true →
      App.norma_existe w x "LEI" n 2020 b' = (decide (1 ≤ n ∧ n ≤ 300000), b'.spend 1)) :
    (App.achar_ultimo_numero w x "LEI" 2020 b 300000).1 = 299999 := by
  have hmM : Nat.clog 2 (300000 + 1) ≤ 19 :=
    (Nat.le_pow_iff_clog_le (by norm_num)).1 (by norm_num)
  have hok : b.ok = true := by
    simp [App.Budget.ok, hu, hm]
  have hne1 := hnet 1 b hok
  have hd1 : decide (1 ≤ 1 ∧ 1 ≤ 300000) = true := by decide
  rw [hd1] at hne1
  simp only [App.achar_ultimo_numero, hok, not_true, if_false, hne1,
    Bool.not_eq_true, if_neg (by simp : ¬ (true = false))]
  set E := App.expLoop w x "LEI" 2020 300000 1 2 (b.spend 1) with hE
  have hsp : (b.spend 1).used = 1 := by
    simp [App.Budget.spend, hu]
  have hsm : (b.spend 1).max_requests = 100 := by
    simp [App.Budget.spend, hm]
  obtain ⟨j', c1, c2, c3, c4, c5, c6⟩ :=
    App.expLoop_alltrue_start w x "LEI" 2020 300000 300000 hnet
      le_rfl (b.spend 1) (by norm_num) (by omega)
  rw [← hE] at c1 c2 c5 c6
  have hj18 : j' ≤ 18 := by
    by_contra hgt
    have h19 : (2 : Nat) ^ 19 ≤ 2 ^ j' := Nat.pow_le_pow_right (by norm_num) (by omega)
    have : (2 : Nat) ^ 19 = 524288 := by norm_num
    omega
  have hlt : 2 ^ j' < 300000 := by
    have h18 : (2 : Nat) ^ j' ≤ 2 ^ 18 := Nat.pow_le_pow_right (by norm_num) hj18
    have : (2 : Nat) ^ 18 = 262144 := by norm_num
    omega
  have hmin : min E.2.1 300000 = 300000 := by
    rw [c2]
    omega
  have hclogr : Nat.clog 2 (300000 - E.1) ≤ 19 := by
    have h1 : Nat.clog 2 (300000 - E.1) ≤ Nat.clog 2 300000 :=
      Nat.clog_mono_right 2 (by omega)
    have h2 : Nat.clog 2 300000 ≤ 19 :=
      (Nat.le_pow_iff_clog_le (by norm_num)).1 (by norm_num)
    omega
  have hbin := App.binLoop_alltrue w x "LEI" 2020 300000 hnet
    (E.2.2.1.max_requests - E.2.2.1.used) E.1 (min E.2.1 300000) E.2.2.1 le_rfl
    (by rw [c1]; exact Nat.one_le_two_pow) (by rw [hmin, c1]; exact hlt)
    (by rw [hmin]; omega) (by rw [hmin]; omega)
  rw [hmin] at hbin
  rw [hmin, hbin]

/-- C1 counterexample: take the contiguous world in which exactly numbers
`1..300000` of tipo `LEI`, ano 2020 exist — so the true last existing
number N equals the hard ceiling 300000, which the claim ("N at or below
the hard ceiling") includes — and an ample budget of 100 requests.  The
prober returns 299999, not N. -/
theorem C1_prober_ceiling_counterexample :
    (App.achar_ultimo_numero (worldContig 300000) idExtract "LEI" 2020
      ⟨100, 0⟩ 300000).1 = 299999 ∧ (299999 : Nat) ≠ 300000 :=
  ⟨App.achar_ceiling_aux (worldContig 300000) idExtract ⟨100, 0⟩ rfl rfl
    (worldContig_norma 300000),
    by norm_num⟩

/-- C6 counterexample: with `last_num_known = 1`, a fresh probe timestamp
(no probe run), the empty pre-run index and `recheck_window = 3`, the
new-range backfill covers number 1 and the recheck window covers number 1
again — so one run of `update_type_year` fetches the same
`(numero, versao) = (1, "Original")` twice, buffering two records for the
same `doc_id`.  Lookups never saw the first buffered record because the
upsert is deferred to the end of the run, contradicting the claim that
same-run writes are visible and no identifier/variant is fetched and
rewritten twice. -/
theorem C6_same_run_visibility_counterexample :
    (App.update_type_year envAll ixEmpty "LEI" 2020
        { last_num_known := 1, last_probe_at := some "t0" } ⟨10, 0⟩ 3).2.2.2.2 =
      [(1, "Original"), (1, "Consolidado"), (1, "Original"), (1, "Consolidado")] ∧
    ((App.update_type_year envAll ixEmpty "LEI" 2020
        { last_num_known := 1, last_probe_at := some "t0" } ⟨10, 0⟩ 3).2.2.2.2.countP
      fun p => decide (p = (1, "Original"))) = 2 := by
  constructor
  · rfl
  · rfl

/-- C6 amended: prior-state lookups consult only the index as it stood at
the start of the run, all produced documents are buffered and written by a
single terminal `upsert_docs`, and the upsert keys by `doc_id`, so the
final index holds one record per identifier.  On the overlap run of the
counterexample: both phase-1 fetches count as `new` and both phase-2
re-fetches of the same numbers count as `updated` (four requests spent),
and the final index contains records exactly for the two fetched
identifiers. -/
theorem C6_deferred_upsert_single_record :
    (App.update_type_year envAll ixEmpty "LEI" 2020
        { last_num_known := 1, last_probe_at := some "t0" } ⟨10, 0⟩ 3).1 =
      { new := 2, updated := 2, skipped := 0, probed := 0 } ∧
    ((App.update_type_year envAll ixEmpty "LEI" 2020
        { last_num_known := 1, last_probe_at := some "t0" } ⟨10, 0⟩ 3).2.2.1
      "LEI_1_2020_orig").isSome = true ∧
    ((App.update_type_year envAll ixEmpty "LEI" 2020
        { last_num_known := 1, last_probe_at := some "t0" } ⟨10, 0⟩ 3).2.2.1
      "LEI_1_2020_cons").isSome = true ∧
    (App.update_type_year envAll ixEmpty "LEI" 2020
        { last_num_known := 1, last_probe_at := some "t0" } ⟨10, 0⟩ 3).2.2.1
      "LEI_2_2020_orig" = none ∧
    (App.update_type_year envAll ixEmpty "LEI" 2020
        { last_num_known := 1, last_probe_at := some "t0" } ⟨10, 0⟩ 3).2.2.2.1 =
      { max_requests := 10, used := 4 } := by
  refine ⟨rfl, rfl, rfl, rfl, rfl⟩
